import Mathlib

/-!
# 2D visibility (`LightMap`) — a shallow embedding of `src/Main.cpp`

The class `LightMap` keeps a room rectangle and a growing list of occluding
segments (`m_lines`).  `calculateCollidePoints` sweeps the begin points of the
segments by angle and casts two rays per angle; `calculateLightTriangles`
turns the hits into a triangle fan.

Scalars (`double` in the source) are the elements of a linearly ordered field
`α`; arithmetic is exact.  The transcendental functions of the math library
(`Atan2`, `Sin`, `Cos`, `Sqrt`, `TwoPi`) are the fields of a record `MathLib α`
that every operation receives; `realMath` is their instance over `ℝ`.
Operations of C++ that are undefined on some inputs (`%` by zero, indexing out
of range) return `Option`.

Where a property depends on the rounding of `double`, the namespace `Binary64`
embeds the query side a second time, every arithmetic operation rounded to
binary64; the statements on registration order (C13) and on the distance of
the returned points (C16) are about that embedding.
-/

namespace LightMap2D

/-! ## Geometry primitives of the graphics library -/

/-- The type `Vec2`: a point or a vector of the plane. -/
structure Vec2 (α : Type) where
  x : α
  y : α
deriving DecidableEq

/-- The type `Line`: a segment with an ordered pair of end points
(`begin`, `end`). -/
structure Line (α : Type) where
  begin : Vec2 α
  end_ : Vec2 α
deriving DecidableEq

/-- The type `RectF`: an axis-aligned rectangle, position `(x, y)` and size
`(w, h)`. -/
structure RectF (α : Type) where
  x : α
  y : α
  w : α
  h : α
deriving DecidableEq

/-- The type `Triangle`. -/
structure Triangle (α : Type) where
  p0 : Vec2 α
  p1 : Vec2 α
  p2 : Vec2 α
deriving DecidableEq

/-- The type `Quad`; `p0 .. p3` are `p[0] .. p[3]` of the source. -/
structure Quad (α : Type) where
  p0 : Vec2 α
  p1 : Vec2 α
  p2 : Vec2 α
  p3 : Vec2 α
deriving DecidableEq

/-- The type `Circle`. -/
structure Circle (α : Type) where
  center : Vec2 α
  r : α
deriving DecidableEq

/-- The math functions the program calls (`Atan2`, the sine and cosine behind
`rotated` and `Circular`, `Sqrt`, and the constant `TwoPi`).  They are not
part of the repository and are passed to every operation that needs them. -/
structure MathLib (α : Type) where
  Atan2 : α → α → α
  Sin : α → α
  Cos : α → α
  Sqrt : α → α
  TwoPi : α

section Primitives

variable {α : Type} [LinearOrderedField α]

/-- Sum of vectors, `a + b`. -/
def Vec2.add (a b : Vec2 α) : Vec2 α := ⟨a.x + b.x, a.y + b.y⟩

/-- Difference of vectors, `a - b`. -/
def Vec2.sub (a b : Vec2 α) : Vec2 α := ⟨a.x - b.x, a.y - b.y⟩

/-- Product with a scalar, `v * s`. -/
def Vec2.mul (v : Vec2 α) (s : α) : Vec2 α := ⟨v.x * s, v.y * s⟩

/-- The constant `Vec2::Right`. -/
def Vec2.Right : Vec2 α := ⟨1, 0⟩

/-- Modelled from the spec: `Vec2::rotated` of the graphics library, the
vector turned by `angle` (counter-clockwise for the axes of `Atan2`). -/
def Vec2.rotated (M : MathLib α) (v : Vec2 α) (angle : α) : Vec2 α :=
  ⟨v.x * M.Cos angle - v.y * M.Sin angle, v.x * M.Sin angle + v.y * M.Cos angle⟩

/-- Squared distance `p.distanceFromSq(q)`. -/
def Vec2.distanceFromSq (p q : Vec2 α) : α :=
  (p.x - q.x) * (p.x - q.x) + (p.y - q.y) * (p.y - q.y)

/-- Modelled from the spec: `Circular(r, theta)` converted to a `Vec2`, the
point of the circle of radius `r` about the origin at angle `theta` (the
library measures `theta` clockwise from twelve o'clock). -/
def Circular (M : MathLib α) (r theta : α) : Vec2 α :=
  ⟨M.Sin theta * r, -(M.Cos theta) * r⟩

/-- The method `Line::moveBy`: both end points translated by `v`. -/
def Line.moveBy (l : Line α) (v : Vec2 α) : Line α :=
  ⟨l.begin.add v, l.end_.add v⟩

/-- Modelled from the spec: `Line::intersectsAt`, the exact intersection
of two segments with both parameters `t`, `u` in `[0, 1]`; parallel and
zero-length segments do not intersect. -/
def Line.intersectsAt (l m : Line α) : Option (Vec2 α) :=
  let r := l.end_.sub l.begin
  let s := m.end_.sub m.begin
  let qp := m.begin.sub l.begin
  let rxs := r.x * s.y - r.y * s.x
  if rxs = 0 then none
  else
    let t := (qp.x * s.y - qp.y * s.x) / rxs
    let u := (qp.x * r.y - qp.y * r.x) / rxs
    if 0 ≤ t ∧ t ≤ 1 ∧ 0 ≤ u ∧ u ≤ 1 then some (l.begin.add (r.mul t)) else none

/-- Corner `tl` of a rectangle. -/
def RectF.tl (r : RectF α) : Vec2 α := ⟨r.x, r.y⟩

/-- Corner `tr` of a rectangle. -/
def RectF.tr (r : RectF α) : Vec2 α := ⟨r.x + r.w, r.y⟩

/-- Corner `br` of a rectangle. -/
def RectF.br (r : RectF α) : Vec2 α := ⟨r.x + r.w, r.y + r.h⟩

/-- Corner `bl` of a rectangle. -/
def RectF.bl (r : RectF α) : Vec2 α := ⟨r.x, r.y + r.h⟩

/-- Modelled from the spec: the edge `top` of a rectangle (the four edges
form a closed loop `tl → tr → br → bl → tl`). -/
def RectF.top (r : RectF α) : Line α := ⟨r.tl, r.tr⟩

/-- Modelled from the spec: the edge `right` of a rectangle. -/
def RectF.right (r : RectF α) : Line α := ⟨r.tr, r.br⟩

/-- Modelled from the spec: the edge `bottom` of a rectangle. -/
def RectF.bottom (r : RectF α) : Line α := ⟨r.br, r.bl⟩

/-- Modelled from the spec: the edge `left` of a rectangle. -/
def RectF.left (r : RectF α) : Line α := ⟨r.bl, r.tl⟩

/-- Modelled from the spec: `RectF::stretched(xy)`, every side moved outward
by `xy` (inward for a negative value: `stretched(-1)` is the rectangle inset
by one unit on all four sides). -/
def RectF.stretched (r : RectF α) (xy : α) : RectF α :=
  ⟨r.x - xy, r.y - xy, r.w + xy * 2, r.h + xy * 2⟩

/-- Modelled from the spec: `RectF::stretched` with four arguments, an
independent stretch per side.  The spec reads the call `stretched(0, 1, 1, 0)`
as "top and right edges extended by one unit, bottom and left unchanged", so
the second argument moves the top edge (`y`) and the third the right edge
(`x + w`) outward; the first and the fourth (both `0` in the program) are
taken as the left and the bottom edge. -/
def RectF.stretched4 (r : RectF α) (a b c d : α) : RectF α :=
  ⟨r.x - a, r.y - b, r.w + a + c, r.h + b + d⟩

/-- Modelled from the spec: `RectF::contains(point)`, the point test of the
library (left and top edge inclusive, right and bottom edge exclusive). -/
def RectF.contains (r : RectF α) (p : Vec2 α) : Bool :=
  decide (r.x ≤ p.x) && decide (p.x < r.x + r.w) &&
    decide (r.y ≤ p.y) && decide (p.y < r.y + r.h)

/-- The operator `%` of `size_t`; the divisor `0` is undefined behaviour and
yields `none`. -/
def checkedMod (a n : Nat) : Option Nat :=
  if n = 0 then none else some (a % n)

end Primitives

/-! ## The class `LightMap` -/

/-- The state of a `LightMap`: the room as supplied and the registered
segments in registration order. -/
structure LightMap (α : Type) where
  m_room : RectF α
  m_lines : List (Line α)

section Registry

variable {α : Type} [LinearOrderedField α]

/-- The overload `addObject(const Triangle&)`. -/
def LightMap.addObjectTriangle (lm : LightMap α) (triangle : Triangle α) : LightMap α :=
  { lm with m_lines := lm.m_lines ++
      [⟨triangle.p0, triangle.p1⟩, ⟨triangle.p1, triangle.p2⟩, ⟨triangle.p2, triangle.p0⟩] }

/-- The overload `addObject(const RectF&)`. -/
def LightMap.addObjectRectF (lm : LightMap α) (rect : RectF α) : LightMap α :=
  let sRect := rect.stretched4 0 1 1 0
  { lm with m_lines := lm.m_lines ++ [sRect.top, sRect.right, sRect.bottom, sRect.left] }

/-- The overload `addObject(const Quad&)`. -/
def LightMap.addObjectQuad (lm : LightMap α) (quad : Quad α) : LightMap α :=
  { lm with m_lines := lm.m_lines ++
      [⟨quad.p0, quad.p1⟩, ⟨quad.p1, quad.p2⟩, ⟨quad.p2, quad.p3⟩, ⟨quad.p3, quad.p0⟩] }

/-- The segments pushed by the loop of `addObject(const Circle&, int)` for the
clamped `quality`. -/
def circleLines (M : MathLib α) (circle : Circle α) (quality : Int) : List (Line α) :=
  let da := M.TwoPi / (quality : α)
  (List.range quality.toNat).map fun i =>
    (Line.mk (Circular M circle.r (da * Nat.cast i))
      (Circular M circle.r (da * Nat.cast (i + 1)))).moveBy circle.center

/-- The overload `addObject(const Circle&, int quality)`. -/
def LightMap.addObjectCircle (M : MathLib α) (lm : LightMap α) (circle : Circle α)
    (quality : Int) : LightMap α :=
  let quality := max quality 6
  { lm with m_lines := lm.m_lines ++ circleLines M circle quality }

/-- The loop of `addObject(const Polygon&)` over the indices `is`: segment `i`
joins `outer[i]` and `outer[(i + 1) % outer.size()]`. -/
def polygonLines (outer : List (Vec2 α)) : List Nat → Option (List (Line α))
  | [] => some []
  | i :: is => do
    let a ← outer[i]?
    let j ← checkedMod (i + 1) outer.length
    let b ← outer[j]?
    let rest ← polygonLines outer is
    pure (⟨a, b⟩ :: rest)

/-- The overload `addObject(const Polygon&)`; the polygon is given by its
outer ring `polygon.outer()`. -/
def LightMap.addObjectPolygon (lm : LightMap α) (outer : List (Vec2 α)) : Option (LightMap α) :=
  (polygonLines outer (List.range outer.length)).map fun ls =>
    { lm with m_lines := lm.m_lines ++ ls }

/-- The constructor `LightMap(const RectF& room)`. -/
def LightMap.construct (room : RectF α) : LightMap α :=
  LightMap.addObjectRectF ⟨room, []⟩ room

/-- The accessor `getRoom`. -/
def LightMap.getRoom (lm : LightMap α) : RectF α := lm.m_room

/-- The registries reachable from construction by `addObject` calls. -/
inductive Reachable (M : MathLib α) : LightMap α → Prop
  | construct (room : RectF α) : Reachable M (LightMap.construct room)
  | addTriangle {lm : LightMap α} (t : Triangle α) :
      Reachable M lm → Reachable M (lm.addObjectTriangle t)
  | addRectF {lm : LightMap α} (r : RectF α) :
      Reachable M lm → Reachable M (lm.addObjectRectF r)
  | addQuad {lm : LightMap α} (q : Quad α) :
      Reachable M lm → Reachable M (lm.addObjectQuad q)
  | addCircle {lm : LightMap α} (c : Circle α) (quality : Int) :
      Reachable M lm → Reachable M (lm.addObjectCircle M c quality)
  | addPolygon {lm lm' : LightMap α} (outer : List (Vec2 α)) :
      Reachable M lm → lm.addObjectPolygon outer = some lm' → Reachable M lm'

end Registry

/-! ## Visibility queries -/

section Queries

variable {α : Type} [LinearOrderedField α]

/-- The constant `epsilon = 1e-10` of `calculateCollidePoints`. -/
def epsilon : α := 1 / 10 ^ 10

/-- The length `maxDistance` of every ray. -/
def maxDistance (M : MathLib α) (lm : LightMap α) : α :=
  2 * M.Sqrt (lm.m_room.w * lm.m_room.w + lm.m_room.h + lm.m_room.h)

/-- The ray cast from `lightPos` at `angle`:
`Line(lightPos, lightPos + Vec2::Right.rotated(angle) * maxDistance)`. -/
def ray (M : MathLib α) (lm : LightMap α) (lightPos : Vec2 α) (angle : α) : Line α :=
  ⟨lightPos, lightPos.add ((Vec2.rotated M Vec2.Right angle).mul (maxDistance M lm))⟩

/-- One half of the body of the inner loop: the collide point kept so far is
replaced by the intersection of `r` with `line` when that is strictly nearer
to `lightPos`. -/
def scanStep (lightPos : Vec2 α) (r : Line α) (cur : Vec2 α) (line : Line α) : Vec2 α :=
  match r.intersectsAt line with
  | some p => if p.distanceFromSq lightPos < cur.distanceFromSq lightPos then p else cur
  | none => cur

/-- The inner loop of `calculateCollidePoints` over the registered segments,
on the pair (`leftCollidePoint`, `rightCollidePoint`). -/
def scanLines (lightPos : Vec2 α) (leftRay rightRay : Line α) (lines : List (Line α))
    (init : Vec2 α × Vec2 α) : Vec2 α × Vec2 α :=
  lines.foldl
    (fun acc line =>
      (scanStep lightPos leftRay acc.1 line, scanStep lightPos rightRay acc.2 line))
    init

/-- The body of the outer loop of `calculateCollidePoints` for one angle. -/
def castPair (M : MathLib α) (lm : LightMap α) (lightPos : Vec2 α) (angle : α) :
    Vec2 α × Vec2 α :=
  let left := angle - epsilon
  let right := angle + epsilon
  let leftRay := ray M lm lightPos left
  let rightRay := ray M lm lightPos right
  scanLines lightPos leftRay rightRay lm.m_lines (leftRay.end_, rightRay.end_)

/-- The angle samples of `calculateCollidePoints`: one per registered segment,
from `lightPos` to the begin point of the segment. -/
def collectAngles (M : MathLib α) (lm : LightMap α) (lightPos : Vec2 α) : List α :=
  lm.m_lines.map fun line =>
    let v := line.begin.sub lightPos
    M.Atan2 v.y v.x

/-- The angle samples after `std::sort`. -/
def sortedAngles (M : MathLib α) (lm : LightMap α) (lightPos : Vec2 α) : List α :=
  (collectAngles M lm lightPos).insertionSort (· ≤ ·)

/-- The method `calculateCollidePoints`. -/
def LightMap.calculateCollidePoints (M : MathLib α) (lm : LightMap α) (lightPos : Vec2 α) :
    List (Vec2 α × Vec2 α) :=
  if !(lm.m_room.stretched (-1)).contains lightPos then []
  else (sortedAngles M lm lightPos).map (castPair M lm lightPos)

/-- The loop of `calculateLightTriangles` over the indices `is`: triangle `i`
is set to `(lightPos, collidePoints[i].second,
collidePoints[(i + 1) % collidePoints.size()].first)`. -/
def fanTriangles (lightPos : Vec2 α) (collidePoints : List (Vec2 α × Vec2 α)) :
    List Nat → Option (List (Triangle α))
  | [] => some []
  | i :: is => do
    let a ← collidePoints[i]?
    let j ← checkedMod (i + 1) collidePoints.length
    let b ← collidePoints[j]?
    let rest ← fanTriangles lightPos collidePoints is
    pure (⟨lightPos, a.2, b.1⟩ :: rest)

/-- The method `calculateLightTriangles`. -/
def LightMap.calculateLightTriangles (M : MathLib α) (lm : LightMap α) (lightPos : Vec2 α) :
    Option (List (Triangle α)) :=
  let collidePoints := lm.calculateCollidePoints M lightPos
  fanTriangles lightPos collidePoints (List.range collidePoints.length)

end Queries

/-! ## The real instance and the vocabulary of the statements -/

/-- The math library over the real numbers: `Atan2 y x` is the argument of
`x + y i`, in `(-π, π]`. -/
noncomputable def realMath : MathLib ℝ where
  Atan2 := fun y x => Complex.arg ⟨x, y⟩
  Sin := Real.sin
  Cos := Real.cos
  Sqrt := Real.sqrt
  TwoPi := 2 * Real.pi

/-- Triangle `i` of the fan as the source sets it, for an index in range (the
degenerate triangle at `lightPos` otherwise). -/
def fanTriangleAt {α : Type} (lightPos : Vec2 α) (c : List (Vec2 α × Vec2 α)) (i : Nat) :
    Triangle α :=
  if h : i < c.length then
    ⟨lightPos, (c.get ⟨i, h⟩).2,
      (c.get ⟨(i + 1) % c.length, Nat.mod_lt _ (Nat.lt_of_le_of_lt (Nat.zero_le i) h)⟩).1⟩
  else ⟨lightPos, lightPos, lightPos⟩

/-- Segment `i` of the closed loop through the vertices `v`, from `v[i]` to
`v[(i + 1) mod n]`, for an index in range (a default segment otherwise). -/
def loopSegmentAt {α : Type} [Zero α] (v : List (Vec2 α)) (i : Nat) : Line α :=
  if h : i < v.length then
    ⟨v.get ⟨i, h⟩,
      v.get ⟨(i + 1) % v.length, Nat.mod_lt _ (Nat.lt_of_le_of_lt (Nat.zero_le i) h)⟩⟩
  else ⟨⟨0, 0⟩, ⟨0, 0⟩⟩

/-- The segments `ls` are the closed loop through the vertices `v[0..n-1]`:
there are `n` of them and segment `i` runs from `v[i]` to `v[(i + 1) mod n]`. -/
def IsClosedLoop {α : Type} (v : List (Vec2 α)) (ls : List (Line α)) : Prop :=
  ls.length = v.length ∧
    ∀ (i : Nat) (h : i < v.length),
      ls[i]? = some
        ⟨v.get ⟨i, h⟩,
          v.get ⟨(i + 1) % v.length, Nat.mod_lt _ (Nat.lt_of_le_of_lt (Nat.zero_le i) h)⟩⟩

/-- The point `p` is a nearest hit of the ray `r` cast from `lightPos` among
the segments `lines`: it is the far end point of the ray or the intersection
of the ray with one of the segments, no intersection of the ray with a segment
is strictly nearer to `lightPos` (by squared distance), and it is the far end
point when no segment intersects the ray. -/
def IsNearestHit {α : Type} [LinearOrderedField α] (lightPos : Vec2 α) (r : Line α)
    (lines : List (Line α)) (p : Vec2 α) : Prop :=
  (p = r.end_ ∨ ∃ line ∈ lines, r.intersectsAt line = some p) ∧
    (∀ line ∈ lines, ∀ q : Vec2 α, r.intersectsAt line = some q →
      ¬ q.distanceFromSq lightPos < p.distanceFromSq lightPos) ∧
    ((∀ line ∈ lines, r.intersectsAt line = none) → p = r.end_)

/-- The point `p` lies on the segment `l`, end points included. -/
def Line.OnSegment {α : Type} [LinearOrderedField α] (l : Line α) (p : Vec2 α) : Prop :=
  ∃ u : α, 0 ≤ u ∧ u ≤ 1 ∧ p = l.begin.add ((l.end_.sub l.begin).mul u)

/-- The centre of a rectangle, `(x + w / 2, y + h / 2)`. -/
def RectF.center {α : Type} [LinearOrderedField α] (r : RectF α) : Vec2 α :=
  ⟨r.x + r.w / 2, r.y + r.h / 2⟩

/-- The registries reachable from `LightMap(room)` by `addObject` calls; the
queries are `const` methods and leave the registry as it is. -/
inductive ReachableFrom {α : Type} [LinearOrderedField α] (M : MathLib α) (room : RectF α) :
    LightMap α → Prop
  | construct : ReachableFrom M room (LightMap.construct room)
  | addTriangle {lm : LightMap α} (t : Triangle α) :
      ReachableFrom M room lm → ReachableFrom M room (lm.addObjectTriangle t)
  | addRectF {lm : LightMap α} (r : RectF α) :
      ReachableFrom M room lm → ReachableFrom M room (lm.addObjectRectF r)
  | addQuad {lm : LightMap α} (q : Quad α) :
      ReachableFrom M room lm → ReachableFrom M room (lm.addObjectQuad q)
  | addCircle {lm : LightMap α} (c : Circle α) (quality : Int) :
      ReachableFrom M room lm → ReachableFrom M room (lm.addObjectCircle M c quality)
  | addPolygon {lm lm2 : LightMap α} (outer : List (Vec2 α)) :
      ReachableFrom M room lm → lm.addObjectPolygon outer = some lm2 →
      ReachableFrom M room lm2

/-! ## The same code in double arithmetic

The definitions above compute with exact scalars.  The namespace `Binary64`
embeds the query side of the source once more with the arithmetic of `double`:
a value is the rational number it denotes, and every `+`, `-`, `*`, `/` of the
source is the exact operation followed by rounding to the nearest number with
a 53-bit significand, ties to even (IEEE 754 binary64; the exponent range is
not bounded, which no computation below reaches).  The math library stays a
parameter `MathLib ℚ`. -/

namespace Binary64

/-- The integer nearest to `num / den`, ties to the even one. -/
def roundNearestEven (num den : Nat) : Nat :=
  let q := num / den
  let r := num % den
  if 2 * r < den then q else if den < 2 * r then q + 1 else if q % 2 = 0 then q else q + 1

/-- The number of binary digits of `n` (the first argument bounds the
recursion; `bitLength n n` is the length). -/
def bitLength : Nat → Nat → Nat
  | 0, _ => 0
  | fuel + 1, n => if n = 0 then 0 else 1 + bitLength fuel (n / 2)

/-- Rounding of a rational number to binary64: the nearest `m · 2^k` with
`2^52 ≤ m ≤ 2^53`, ties to even. -/
def round (q : ℚ) : ℚ :=
  if q.num = 0 then 0
  else
    let n := q.num.natAbs
    let d := q.den
    let ln := bitLength n n - 1
    let ld := bitLength d d - 1
    let e0 : Int := (ln : Int) - (ld : Int)
    let e : Int := if d * 2 ^ ln ≤ n * 2 ^ ld then e0 else e0 - 1
    let k : Int := 52 - e
    let m : Nat :=
      if 0 ≤ k then roundNearestEven (n * 2 ^ k.toNat) d
      else roundNearestEven n (d * 2 ^ (-k).toNat)
    let s : Int := if q.num < 0 then -1 else 1
    if 0 ≤ k then mkRat (s * m) (2 ^ k.toNat) else mkRat (s * m * 2 ^ (-k).toNat) 1

/-- The operator `+` of `double`. -/
def fadd (a b : ℚ) : ℚ := round (a + b)

/-- The operator `-` of `double`. -/
def fsub (a b : ℚ) : ℚ := round (a - b)

/-- The operator `*` of `double`. -/
def fmul (a b : ℚ) : ℚ := round (a * b)

/-- The operator `/` of `double`. -/
def fdiv (a b : ℚ) : ℚ := round (a / b)

/-- Sum of vectors, `a + b`. -/
def vadd (a b : Vec2 ℚ) : Vec2 ℚ := ⟨fadd a.x b.x, fadd a.y b.y⟩

/-- Difference of vectors, `a - b`. -/
def vsub (a b : Vec2 ℚ) : Vec2 ℚ := ⟨fsub a.x b.x, fsub a.y b.y⟩

/-- Product with a scalar, `v * s`. -/
def vmul (v : Vec2 ℚ) (s : ℚ) : Vec2 ℚ := ⟨fmul v.x s, fmul v.y s⟩

/-- Modelled from the spec: `Vec2::rotated`, as `Vec2.rotated` above, every
operation rounded. -/
def rotated (M : MathLib ℚ) (v : Vec2 ℚ) (angle : ℚ) : Vec2 ℚ :=
  ⟨fsub (fmul v.x (M.Cos angle)) (fmul v.y (M.Sin angle)),
    fadd (fmul v.x (M.Sin angle)) (fmul v.y (M.Cos angle))⟩

/-- Squared distance `p.distanceFromSq(q)`, every operation rounded. -/
def distanceFromSq (p q : Vec2 ℚ) : ℚ :=
  fadd (fmul (fsub p.x q.x) (fsub p.x q.x)) (fmul (fsub p.y q.y) (fsub p.y q.y))

/-- Modelled from the spec: `Line::intersectsAt`, as `Line.intersectsAt`
above, every operation rounded once, in the order of the formula. -/
def intersectsAt (l m : Line ℚ) : Option (Vec2 ℚ) :=
  let r := vsub l.end_ l.begin
  let s := vsub m.end_ m.begin
  let qp := vsub m.begin l.begin
  let rxs := fsub (fmul r.x s.y) (fmul r.y s.x)
  if rxs = 0 then none
  else
    let t := fdiv (fsub (fmul qp.x s.y) (fmul qp.y s.x)) rxs
    let u := fdiv (fsub (fmul qp.x r.y) (fmul qp.y r.x)) rxs
    if 0 ≤ t ∧ t ≤ 1 ∧ 0 ≤ u ∧ u ≤ 1 then some (vadd l.begin (vmul r t)) else none

/-- Modelled from the spec: `RectF::stretched(xy)`, as `RectF.stretched`
above, every operation rounded. -/
def stretched (r : RectF ℚ) (xy : ℚ) : RectF ℚ :=
  ⟨fsub r.x xy, fsub r.y xy, fadd r.w (fmul xy 2), fadd r.h (fmul xy 2)⟩

/-- Modelled from the spec: `RectF::stretched` with four arguments, as
`RectF.stretched4` above, every operation rounded. -/
def stretched4 (r : RectF ℚ) (a b c d : ℚ) : RectF ℚ :=
  ⟨fsub r.x a, fsub r.y b, fadd (fadd r.w a) c, fadd (fadd r.h b) d⟩

/-- Modelled from the spec: `RectF::contains(point)`, as `RectF.contains`
above, the sums rounded. -/
def contains (r : RectF ℚ) (p : Vec2 ℚ) : Bool :=
  decide (r.x ≤ p.x) && decide (p.x < fadd r.x r.w) &&
    decide (r.y ≤ p.y) && decide (p.y < fadd r.y r.h)

/-- Modelled from the spec: the edges `top`, `right`, `bottom`, `left` of a
rectangle, as above, the corner coordinates rounded. -/
def edges (r : RectF ℚ) : List (Line ℚ) :=
  [⟨⟨r.x, r.y⟩, ⟨fadd r.x r.w, r.y⟩⟩,
    ⟨⟨fadd r.x r.w, r.y⟩, ⟨fadd r.x r.w, fadd r.y r.h⟩⟩,
    ⟨⟨fadd r.x r.w, fadd r.y r.h⟩, ⟨r.x, fadd r.y r.h⟩⟩,
    ⟨⟨r.x, fadd r.y r.h⟩, ⟨r.x, r.y⟩⟩]

/-- The overload `addObject(const RectF&)`. -/
def addObjectRectF (lm : LightMap ℚ) (rect : RectF ℚ) : LightMap ℚ :=
  { lm with m_lines := lm.m_lines ++ edges (stretched4 rect 0 1 1 0) }

/-- The constructor `LightMap(const RectF& room)`. -/
def construct (room : RectF ℚ) : LightMap ℚ :=
  addObjectRectF ⟨room, []⟩ room

/-- The constant `epsilon = 1e-10` of `calculateCollidePoints`: the `double`
nearest to `10^-10`. -/
def epsilon : ℚ := round (1 / 10 ^ 10)

/-- The length `maxDistance` of every ray. -/
def maxDistance (M : MathLib ℚ) (lm : LightMap ℚ) : ℚ :=
  fmul 2 (M.Sqrt (fadd (fadd (fmul lm.m_room.w lm.m_room.w) lm.m_room.h) lm.m_room.h))

/-- The ray cast from `lightPos` at `angle`:
`Line(lightPos, lightPos + Vec2::Right.rotated(angle) * maxDistance)`. -/
def ray (M : MathLib ℚ) (lm : LightMap ℚ) (lightPos : Vec2 ℚ) (angle : ℚ) : Line ℚ :=
  ⟨lightPos, vadd lightPos (vmul (rotated M ⟨1, 0⟩ angle) (maxDistance M lm))⟩

/-- One half of the body of the inner loop: the collide point kept so far is
replaced by the intersection of `r` with `line` when its computed squared
distance is strictly smaller. -/
def scanStep (lightPos : Vec2 ℚ) (r : Line ℚ) (cur : Vec2 ℚ) (line : Line ℚ) : Vec2 ℚ :=
  match intersectsAt r line with
  | some p => if distanceFromSq p lightPos < distanceFromSq cur lightPos then p else cur
  | none => cur

/-- The inner loop of `calculateCollidePoints` over the registered segments,
on the pair (`leftCollidePoint`, `rightCollidePoint`). -/
def scanLines (lightPos : Vec2 ℚ) (leftRay rightRay : Line ℚ) (lines : List (Line ℚ))
    (init : Vec2 ℚ × Vec2 ℚ) : Vec2 ℚ × Vec2 ℚ :=
  lines.foldl
    (fun acc line =>
      (scanStep lightPos leftRay acc.1 line, scanStep lightPos rightRay acc.2 line))
    init

/-- The body of the outer loop of `calculateCollidePoints` for one angle. -/
def castPair (M : MathLib ℚ) (lm : LightMap ℚ) (lightPos : Vec2 ℚ) (angle : ℚ) :
    Vec2 ℚ × Vec2 ℚ :=
  let left := fsub angle epsilon
  let right := fadd angle epsilon
  let leftRay := ray M lm lightPos left
  let rightRay := ray M lm lightPos right
  scanLines lightPos leftRay rightRay lm.m_lines (leftRay.end_, rightRay.end_)

/-- The angle samples of `calculateCollidePoints`: one per registered segment,
from `lightPos` to the begin point of the segment. -/
def collectAngles (M : MathLib ℚ) (lm : LightMap ℚ) (lightPos : Vec2 ℚ) : List ℚ :=
  lm.m_lines.map fun line =>
    let v := vsub line.begin lightPos
    M.Atan2 v.y v.x

/-- The angle samples after `std::sort`. -/
def sortedAngles (M : MathLib ℚ) (lm : LightMap ℚ) (lightPos : Vec2 ℚ) : List ℚ :=
  (collectAngles M lm lightPos).insertionSort (· ≤ ·)

/-- The method `calculateCollidePoints`. -/
def calculateCollidePoints (M : MathLib ℚ) (lm : LightMap ℚ) (lightPos : Vec2 ℚ) :
    List (Vec2 ℚ × Vec2 ℚ) :=
  if !contains (stretched lm.m_room (-1)) lightPos then []
  else (sortedAngles M lm lightPos).map (castPair M lm lightPos)

/-- The `double` nearest to `π / 2`, the value of `Atan2(y, 0)` for `y > 0`. -/
def halfPi : ℚ := mkRat 884279719003555 (2 ^ 49)

/-- The `double` nearest to `cos(halfPi - epsilon)`, about `1.0000007e-10`. -/
def cosNearHalfPi : ℚ := mkRat 7737130623329073 (2 ^ 86)

/-- The math library returns the correctly rounded result at the arguments
the examples below reach: `atan2(0, x) = 0` and `atan2(y, 0) = π/2` for
positive `x`, `y`; `cos(-1e-10) = 1` and `sin(-1e-10) = -1e-10`;
`sin(π/2 - 1e-10) = 1` and `cos(π/2 - 1e-10) = 1.0000007e-10`; the square roots
of `186624 = 432²` and `400 = 20²`. -/
def CorrectlyRoundedSamples (M : MathLib ℚ) : Prop :=
  (∀ x : ℚ, 0 < x → M.Atan2 0 x = 0) ∧
    (∀ y : ℚ, 0 < y → M.Atan2 y 0 = halfPi) ∧
    M.Cos (fsub 0 epsilon) = 1 ∧
    M.Sin (fsub 0 epsilon) = fsub 0 epsilon ∧
    M.Sin (fsub halfPi epsilon) = 1 ∧
    M.Cos (fsub halfPi epsilon) = cosNearHalfPi ∧
    M.Sqrt 186624 = 432 ∧
    M.Sqrt 400 = 20

/-- A math library with the correctly rounded results at the arguments of
`CorrectlyRoundedSamples`; at every other argument its value is a placeholder
(`sin x = x`, `cos x = 1`, the angle of a point off the axes is `π/2`). -/
def sampleMath : MathLib ℚ where
  Atan2 := fun y _ => if y = 0 then 0 else halfPi
  Sin := fun a => if a = fsub halfPi epsilon then 1 else a
  Cos := fun a => if a = fsub halfPi epsilon then cosNearHalfPi else 1
  Sqrt := fun v => if v = 186624 then 432 else 20
  TwoPi := fmul 4 halfPi

/-- The room `RectF(-2, -96, 4, 192)` with the triangle
`Triangle(0, 50, 1, 60, -1, 60)` added. -/
def tallRegistry : LightMap ℚ :=
  (construct ⟨-2, -96, 4, 192⟩).addObjectTriangle ⟨⟨0, 50⟩, ⟨1, 60⟩, ⟨-1, 60⟩⟩

/-- The light position `Vec2(0, 0)`, the centre of the room of `tallRegistry`. -/
def tallLight : Vec2 ℚ := ⟨0, 0⟩

end Binary64

/-! ## General lemmas -/

section Lemmas

variable {α : Type} [LinearOrderedField α]

theorem checkedMod_of_pos (a n : Nat) (h : 0 < n) : checkedMod a n = some (a % n) := by
  unfold checkedMod
  rw [if_neg (Nat.pos_iff_ne_zero.mp h)]

theorem calculateCollidePoints_outside (M : MathLib α) (lm : LightMap α) (lightPos : Vec2 α)
    (h : (lm.m_room.stretched (-1)).contains lightPos = false) :
    lm.calculateCollidePoints M lightPos = [] := by
  unfold LightMap.calculateCollidePoints
  simp [h]

theorem calculateCollidePoints_inside (M : MathLib α) (lm : LightMap α) (lightPos : Vec2 α)
    (h : (lm.m_room.stretched (-1)).contains lightPos = true) :
    lm.calculateCollidePoints M lightPos
      = (sortedAngles M lm lightPos).map (castPair M lm lightPos) := by
  unfold LightMap.calculateCollidePoints
  simp [h]

theorem length_sortedAngles (M : MathLib α) (lm : LightMap α) (lightPos : Vec2 α) :
    (sortedAngles M lm lightPos).length = lm.m_lines.length := by
  unfold sortedAngles collectAngles
  rw [List.length_insertionSort, List.length_map]

theorem length_calculateCollidePoints_inside (M : MathLib α) (lm : LightMap α)
    (lightPos : Vec2 α) (h : (lm.m_room.stretched (-1)).contains lightPos = true) :
    (lm.calculateCollidePoints M lightPos).length = lm.m_lines.length := by
  rw [calculateCollidePoints_inside M lm lightPos h, List.length_map, length_sortedAngles]

theorem length_construct (room : RectF α) : (LightMap.construct room).m_lines.length = 4 := by
  simp [LightMap.construct, LightMap.addObjectRectF]

omit [LinearOrderedField α] in
theorem polygonLines_length (outer : List (Vec2 α)) :
    ∀ (is : List Nat) (ls : List (Line α)), polygonLines outer is = some ls →
      ls.length = is.length := by
  intro is
  induction is with
  | nil =>
    intro ls h
    simp [polygonLines] at h
    simp [← h]
  | cons i is ih =>
    intro ls h
    simp only [polygonLines, Option.bind_eq_bind, Option.pure_def, Option.bind_eq_some] at h
    obtain ⟨a, -, j, -, b, -, rest, hrest, hls⟩ := h
    have := ih rest hrest
    simp at hls
    simp [← hls, this]

theorem four_le_length_of_reachable (M : MathLib α) {lm : LightMap α} (h : Reachable M lm) :
    4 ≤ lm.m_lines.length := by
  induction h with
  | construct room => rw [length_construct]
  | addTriangle t _ ih => simp only [LightMap.addObjectTriangle, List.length_append]; omega
  | addRectF r _ ih => simp only [LightMap.addObjectRectF, List.length_append]; omega
  | addQuad q _ ih => simp only [LightMap.addObjectQuad, List.length_append]; omega
  | addCircle c quality _ ih => simp only [LightMap.addObjectCircle, List.length_append]; omega
  | addPolygon outer _ hadd ih =>
    simp only [LightMap.addObjectPolygon, Option.map_eq_some'] at hadd
    obtain ⟨ls, -, rfl⟩ := hadd
    simp only [List.length_append]
    omega

omit [LinearOrderedField α] in
theorem fanTriangles_eq_map (lightPos : Vec2 α) (c : List (Vec2 α × Vec2 α)) :
    ∀ is : List Nat, (∀ i ∈ is, i < c.length) →
      fanTriangles lightPos c is = some (is.map (fanTriangleAt lightPos c)) := by
  intro is
  induction is with
  | nil => intro _; rfl
  | cons i is ih =>
    intro h
    have hi : i < c.length := h i (List.mem_cons_self _ _)
    have hpos : 0 < c.length := Nat.lt_of_le_of_lt (Nat.zero_le i) hi
    have hj : (i + 1) % c.length < c.length := Nat.mod_lt _ hpos
    have ih' := ih (fun k hk => h k (List.mem_cons_of_mem _ hk))
    simp only [fanTriangles, Option.bind_eq_bind, Option.pure_def, checkedMod_of_pos _ _ hpos,
      List.getElem?_eq_getElem hi, List.getElem?_eq_getElem hj, Option.some_bind, ih']
    simp [fanTriangleAt, hi]

theorem calculateLightTriangles_eq (M : MathLib α) (lm : LightMap α) (lightPos : Vec2 α) :
    lm.calculateLightTriangles M lightPos
      = some ((List.range (lm.calculateCollidePoints M lightPos).length).map
          (fanTriangleAt lightPos (lm.calculateCollidePoints M lightPos))) := by
  unfold LightMap.calculateLightTriangles
  exact fanTriangles_eq_map lightPos _ _ (fun i hi => List.mem_range.mp hi)

theorem polygonLines_eq_map (outer : List (Vec2 α)) :
    ∀ is : List Nat, (∀ i ∈ is, i < outer.length) →
      polygonLines outer is = some (is.map (loopSegmentAt outer)) := by
  intro is
  induction is with
  | nil => intro _; rfl
  | cons i is ih =>
    intro h
    have hi : i < outer.length := h i (List.mem_cons_self _ _)
    have hpos : 0 < outer.length := Nat.lt_of_le_of_lt (Nat.zero_le i) hi
    have hj : (i + 1) % outer.length < outer.length := Nat.mod_lt _ hpos
    have ih' := ih (fun k hk => h k (List.mem_cons_of_mem _ hk))
    simp only [polygonLines, Option.bind_eq_bind, Option.pure_def, checkedMod_of_pos _ _ hpos,
      List.getElem?_eq_getElem hi, List.getElem?_eq_getElem hj, Option.some_bind, ih']
    simp [loopSegmentAt, hi]

theorem addObjectPolygon_eq (lm : LightMap α) (outer : List (Vec2 α)) :
    lm.addObjectPolygon outer
      = some ⟨lm.m_room, lm.m_lines ++ (List.range outer.length).map (loopSegmentAt outer)⟩ := by
  unfold LightMap.addObjectPolygon
  rw [polygonLines_eq_map outer _ (fun i hi => List.mem_range.mp hi)]
  rfl

theorem isClosedLoop_range_map (v : List (Vec2 α)) :
    IsClosedLoop v ((List.range v.length).map (loopSegmentAt v)) := by
  refine ⟨by simp, ?_⟩
  intro i h
  simp [h, loopSegmentAt]

theorem scanLines_eq (lightPos : Vec2 α) (leftRay rightRay : Line α) :
    ∀ (lines : List (Line α)) (init : Vec2 α × Vec2 α),
      scanLines lightPos leftRay rightRay lines init
        = (lines.foldl (scanStep lightPos leftRay) init.1,
            lines.foldl (scanStep lightPos rightRay) init.2) := by
  intro lines
  induction lines with
  | nil => intro init; rfl
  | cons line lines ih =>
    intro init
    have h := ih (scanStep lightPos leftRay init.1 line, scanStep lightPos rightRay init.2 line)
    simpa [scanLines] using h

theorem scanStep_cases (lightPos : Vec2 α) (r : Line α) (cur : Vec2 α) (line : Line α) :
    (scanStep lightPos r cur line = cur ∧
        ∀ q, r.intersectsAt line = some q →
          ¬ q.distanceFromSq lightPos < cur.distanceFromSq lightPos) ∨
      (r.intersectsAt line = some (scanStep lightPos r cur line) ∧
        (scanStep lightPos r cur line).distanceFromSq lightPos
          < cur.distanceFromSq lightPos) := by
  unfold scanStep
  cases hq : r.intersectsAt line with
  | none => left; simp
  | some q =>
    by_cases hlt : q.distanceFromSq lightPos < cur.distanceFromSq lightPos
    · right; simp [hlt]
    · left
      refine ⟨by simp [hlt], ?_⟩
      intro q' hq'
      cases hq'
      exact hlt

theorem foldl_scanStep_spec (lightPos : Vec2 α) (r : Line α) :
    ∀ (lines : List (Line α)) (init : Vec2 α),
      (lines.foldl (scanStep lightPos r) init = init ∨
          ∃ line ∈ lines,
            r.intersectsAt line = some (lines.foldl (scanStep lightPos r) init)) ∧
        (lines.foldl (scanStep lightPos r) init).distanceFromSq lightPos
          ≤ init.distanceFromSq lightPos ∧
        ∀ line ∈ lines, ∀ q : Vec2 α, r.intersectsAt line = some q →
          ¬ q.distanceFromSq lightPos
            < (lines.foldl (scanStep lightPos r) init).distanceFromSq lightPos := by
  intro lines
  induction lines with
  | nil =>
    intro init
    exact ⟨Or.inl rfl, le_refl _, fun line h => absurd h (List.not_mem_nil _)⟩
  | cons line lines ih =>
    intro init
    obtain ⟨hor, hle, hmin⟩ := ih (scanStep lightPos r init line)
    have hstep : (scanStep lightPos r init line).distanceFromSq lightPos
        ≤ init.distanceFromSq lightPos := by
      rcases scanStep_cases lightPos r init line with ⟨h, -⟩ | ⟨-, h⟩
      · rw [h]
      · exact le_of_lt h
    simp only [List.foldl_cons]
    refine ⟨?_, le_trans hle hstep, ?_⟩
    · rcases hor with h | ⟨l, hl, h⟩
      · rcases scanStep_cases lightPos r init line with ⟨h', -⟩ | ⟨h', -⟩
        · left; rw [h, h']
        · right; exact ⟨line, List.mem_cons_self _ _, by rw [h]; exact h'⟩
      · right; exact ⟨l, List.mem_cons_of_mem _ hl, h⟩
    · intro l hl q hq
      rcases List.mem_cons.mp hl with rfl | hl'
      · intro hlt
        have hlt' : q.distanceFromSq lightPos
            < (scanStep lightPos r init l).distanceFromSq lightPos := lt_of_lt_of_le hlt hle
        rcases scanStep_cases lightPos r init l with ⟨h', hno⟩ | ⟨h', -⟩
        · rw [h'] at hlt'
          exact hno q hq hlt'
        · rw [hq] at h'
          cases h'
          exact lt_irrefl _ hlt'
      · exact hmin l hl' q hq

theorem isNearestHit_foldl (lightPos : Vec2 α) (r : Line α) (lines : List (Line α)) :
    IsNearestHit lightPos r lines (lines.foldl (scanStep lightPos r) r.end_) := by
  obtain ⟨hor, -, hmin⟩ := foldl_scanStep_spec lightPos r lines r.end_
  refine ⟨hor, hmin, ?_⟩
  intro hnone
  rcases hor with h | ⟨l, hl, h⟩
  · exact h
  · rw [hnone l hl] at h
    cases h

theorem castPair_eq (M : MathLib α) (lm : LightMap α) (lightPos : Vec2 α) (angle : α) :
    castPair M lm lightPos angle
      = (lm.m_lines.foldl (scanStep lightPos (ray M lm lightPos (angle - epsilon)))
            (ray M lm lightPos (angle - epsilon)).end_,
          lm.m_lines.foldl (scanStep lightPos (ray M lm lightPos (angle + epsilon)))
            (ray M lm lightPos (angle + epsilon)).end_) := by
  unfold castPair
  simp only [scanLines_eq]

theorem circleLines_length (M : MathLib α) (circle : Circle α) (quality : Int) :
    (circleLines M circle quality).length = quality.toNat := by
  simp [circleLines]

theorem circleLines_getElem? (M : MathLib α) (circle : Circle α) (quality : Int) (i : Nat)
    (h : i < quality.toNat) :
    (circleLines M circle quality)[i]? = some
      ⟨(Circular M circle.r (M.TwoPi / (quality : α) * (i : α))).add circle.center,
        (Circular M circle.r (M.TwoPi / (quality : α) * ((i + 1 : Nat) : α))).add
          circle.center⟩ := by
  simp [circleLines, h, Line.moveBy]

theorem distanceFromSq_circular (M : MathLib α)
    (hunit : ∀ t, M.Sin t * M.Sin t + M.Cos t * M.Cos t = 1) (c : Vec2 α) (r theta : α) :
    ((Circular M r theta).add c).distanceFromSq c = r * r := by
  simp only [Circular, Vec2.add, Vec2.distanceFromSq]
  have h := hunit theta
  linear_combination (r * r) * h

theorem intersectsAt_some (l m : Line α) (p : Vec2 α) (h : l.intersectsAt m = some p) :
    l.OnSegment p ∧ m.OnSegment p := by
  unfold Line.intersectsAt at h
  simp only at h
  split_ifs at h with hz hr
  obtain ⟨ht0, ht1, hu0, hu1⟩ := hr
  simp only [Option.some.injEq] at h
  refine ⟨⟨_, ht0, ht1, h.symm⟩, ⟨_, hu0, hu1, ?_⟩⟩
  rw [← h]
  simp only [Vec2.add, Vec2.sub, Vec2.mul, Vec2.mk.injEq] at hz ⊢
  constructor
  · field_simp
    ring
  · field_simp
    ring

theorem isNearestHit_ne_lightPos (lightPos : Vec2 α) (r : Line α) (lines : List (Line α))
    (p : Vec2 α) (hp : IsNearestHit lightPos r lines p) (hend : r.end_ ≠ lightPos)
    (hoff : ∀ line ∈ lines, ¬ line.OnSegment lightPos) : p ≠ lightPos := by
  rcases hp.1 with h | ⟨line, hl, h⟩
  · rw [h]; exact hend
  · intro hpl
    rw [hpl] at h
    exact hoff line hl (intersectsAt_some r line lightPos h).2

theorem isNearestHit_onSegment (lightPos : Vec2 α) (r : Line α) (lines : List (Line α))
    (p : Vec2 α) (hp : IsNearestHit lightPos r lines p) : r.OnSegment p := by
  rcases hp.1 with h | ⟨line, -, h⟩
  · refine ⟨1, zero_le_one, le_refl _, ?_⟩
    rw [h]
    simp [Vec2.add, Vec2.sub, Vec2.mul]
  · exact (intersectsAt_some r line p h).1

theorem castPair_fst_ne_snd (M : MathLib α) (lm : LightMap α) (lightPos : Vec2 α) (angle : α)
    (hD : maxDistance M lm ≠ 0)
    (hcross : M.Cos (angle - epsilon) * M.Sin (angle + epsilon)
      - M.Sin (angle - epsilon) * M.Cos (angle + epsilon) ≠ 0)
    (hoff : ∀ line ∈ lm.m_lines, ¬ line.OnSegment lightPos) :
    (castPair M lm lightPos angle).1 ≠ (castPair M lm lightPos angle).2 := by
  rw [castPair_eq]
  simp only
  have hL := isNearestHit_foldl lightPos (ray M lm lightPos (angle - epsilon)) lm.m_lines
  have hR := isNearestHit_foldl lightPos (ray M lm lightPos (angle + epsilon)) lm.m_lines
  set p := lm.m_lines.foldl (scanStep lightPos (ray M lm lightPos (angle - epsilon)))
    (ray M lm lightPos (angle - epsilon)).end_ with hpdef
  set q := lm.m_lines.foldl (scanStep lightPos (ray M lm lightPos (angle + epsilon)))
    (ray M lm lightPos (angle + epsilon)).end_ with hqdef
  have hendL : (ray M lm lightPos (angle - epsilon)).end_ ≠ lightPos := by
    intro h
    have hx := congrArg Vec2.x h
    have hy := congrArg Vec2.y h
    simp only [ray, Vec2.add, Vec2.mul, Vec2.rotated, Vec2.Right] at hx hy
    have hc : M.Cos (angle - epsilon) * maxDistance M lm = 0 := by linear_combination hx
    have hs : M.Sin (angle - epsilon) * maxDistance M lm = 0 := by linear_combination hy
    have hc0 : M.Cos (angle - epsilon) = 0 := (mul_eq_zero.mp hc).resolve_right hD
    have hs0 : M.Sin (angle - epsilon) = 0 := (mul_eq_zero.mp hs).resolve_right hD
    apply hcross
    rw [hc0, hs0]
    ring
  have hpne : p ≠ lightPos := isNearestHit_ne_lightPos lightPos _ lm.m_lines p hL hendL hoff
  obtain ⟨t, -, -, hpt⟩ := isNearestHit_onSegment lightPos _ lm.m_lines p hL
  obtain ⟨u, -, -, hqu⟩ := isNearestHit_onSegment lightPos _ lm.m_lines q hR
  intro hpq
  apply hpne
  rw [hpq] at hpt
  rw [hpq]
  have h1 := hpt
  have h2 := hqu
  rw [h2] at h1
  have hx1 := congrArg Vec2.x h1
  have hy1 := congrArg Vec2.y h1
  simp only [ray, Vec2.add, Vec2.sub, Vec2.mul, Vec2.rotated, Vec2.Right] at hx1 hy1 hqu hpt
  have hex : u * maxDistance M lm * M.Cos (angle + epsilon)
      = t * maxDistance M lm * M.Cos (angle - epsilon) := by linear_combination hx1
  have hey : u * maxDistance M lm * M.Sin (angle + epsilon)
      = t * maxDistance M lm * M.Sin (angle - epsilon) := by linear_combination hy1
  have hu0 : u * maxDistance M lm
      * (M.Cos (angle - epsilon) * M.Sin (angle + epsilon)
        - M.Sin (angle - epsilon) * M.Cos (angle + epsilon)) = 0 := by
    linear_combination (M.Cos (angle - epsilon)) * hey - (M.Sin (angle - epsilon)) * hex
  have hu1 : u * maxDistance M lm = 0 := (mul_eq_zero.mp hu0).resolve_right hcross
  have hu2 : u = 0 := (mul_eq_zero.mp hu1).resolve_right hD
  rw [hqu, hu2]
  simp [Vec2.add, Vec2.sub, Vec2.mul]

theorem ray_onSegment (M : MathLib α) (lm : LightMap α) (lightPos : Vec2 α) (angle : α)
    (p : Vec2 α) (h : (ray M lm lightPos angle).OnSegment p) :
    ∃ t : α, 0 ≤ t ∧ t ≤ 1 ∧ p.x = lightPos.x + t * (maxDistance M lm * M.Cos angle) ∧
      p.y = lightPos.y + t * (maxDistance M lm * M.Sin angle) := by
  obtain ⟨t, ht0, ht1, hp⟩ := h
  refine ⟨t, ht0, ht1, ?_, ?_⟩
  · rw [hp]
    simp only [ray, Vec2.add, Vec2.sub, Vec2.mul, Vec2.rotated, Vec2.Right]
    ring
  · rw [hp]
    simp only [ray, Vec2.add, Vec2.sub, Vec2.mul, Vec2.rotated, Vec2.Right]
    ring

theorem ray_end_onSegment (M : MathLib α) (lm : LightMap α) (lightPos : Vec2 α) (angle : α) :
    (ray M lm lightPos angle).OnSegment (ray M lm lightPos angle).end_ := by
  refine ⟨1, zero_le_one, le_refl _, ?_⟩
  simp [Vec2.add, Vec2.sub, Vec2.mul]

theorem reachable_of_reachableFrom (M : MathLib α) {room : RectF α} {lm : LightMap α}
    (h : ReachableFrom M room lm) : Reachable M lm := by
  induction h with
  | construct => exact Reachable.construct room
  | addTriangle t _ ih => exact Reachable.addTriangle t ih
  | addRectF r _ ih => exact Reachable.addRectF r ih
  | addQuad q _ ih => exact Reachable.addQuad q ih
  | addCircle c quality _ ih => exact Reachable.addCircle c quality ih
  | addPolygon outer _ hadd ih => exact Reachable.addPolygon outer ih hadd

theorem construct_m_lines (room : RectF α) :
    (LightMap.construct room).m_lines
      = [(room.stretched4 0 1 1 0).top, (room.stretched4 0 1 1 0).right,
          (room.stretched4 0 1 1 0).bottom, (room.stretched4 0 1 1 0).left] := by
  simp [LightMap.construct, LightMap.addObjectRectF]

theorem room_prefix_of_reachableFrom (M : MathLib α) {room : RectF α} {lm : LightMap α}
    (h : ReachableFrom M room lm) : (LightMap.construct room).m_lines <+: lm.m_lines := by
  induction h with
  | construct => exact List.prefix_refl _
  | addTriangle t _ ih => exact ih.trans (List.prefix_append _ _)
  | addRectF r _ ih => exact ih.trans (List.prefix_append _ _)
  | addQuad q _ ih => exact ih.trans (List.prefix_append _ _)
  | addCircle c quality _ ih => exact ih.trans (List.prefix_append _ _)
  | addPolygon outer _ hadd ih =>
    rw [addObjectPolygon_eq] at hadd
    cases hadd
    exact ih.trans (List.prefix_append _ _)

theorem m_room_of_reachableFrom (M : MathLib α) {room : RectF α} {lm : LightMap α}
    (h : ReachableFrom M room lm) : lm.m_room = room := by
  induction h with
  | construct => rfl
  | addTriangle t _ ih => exact ih
  | addRectF r _ ih => exact ih
  | addQuad q _ ih => exact ih
  | addCircle c quality _ ih => exact ih
  | addPolygon outer _ hadd ih =>
    rw [addObjectPolygon_eq] at hadd
    cases hadd
    exact ih

theorem onSegment_eq_of_distanceFromSq_eq (r : Line α) (p q : Vec2 α)
    (hp : r.OnSegment p) (hq : r.OnSegment q)
    (hd : p.distanceFromSq r.begin = q.distanceFromSq r.begin) : p = q := by
  obtain ⟨t, ht0, -, hpt⟩ := hp
  obtain ⟨u, hu0, -, hqu⟩ := hq
  rw [hpt, hqu] at hd
  simp only [Vec2.add, Vec2.sub, Vec2.mul, Vec2.distanceFromSq] at hd
  have hfac : (t - u) * ((t + u) * ((r.end_.x - r.begin.x) * (r.end_.x - r.begin.x)
      + (r.end_.y - r.begin.y) * (r.end_.y - r.begin.y))) = 0 := by
    linear_combination hd
  rw [hpt, hqu]
  rcases mul_eq_zero.mp hfac with h | h
  · have htu : t = u := by linarith
    rw [htu]
  · rcases mul_eq_zero.mp h with h2 | h2
    · have ht : t = 0 := by linarith
      have hu : u = 0 := by linarith
      rw [ht, hu]
    · have hx0 : (r.end_.x - r.begin.x) * (r.end_.x - r.begin.x) = 0 := by
        nlinarith [mul_self_nonneg (r.end_.x - r.begin.x),
          mul_self_nonneg (r.end_.y - r.begin.y)]
      have hy0 : (r.end_.y - r.begin.y) * (r.end_.y - r.begin.y) = 0 := by
        nlinarith [mul_self_nonneg (r.end_.x - r.begin.x),
          mul_self_nonneg (r.end_.y - r.begin.y)]
      have hx : r.end_.x - r.begin.x = 0 := mul_self_eq_zero.mp hx0
      have hy : r.end_.y - r.begin.y = 0 := mul_self_eq_zero.mp hy0
      simp only [Vec2.add, Vec2.sub, Vec2.mul, hx, hy, zero_mul]

theorem foldl_scanStep_le (lightPos : Vec2 α) (r : Line α) (lines : List (Line α))
    (c : Vec2 α) (hc : c = r.end_ ∨ ∃ line ∈ lines, r.intersectsAt line = some c) :
    (lines.foldl (scanStep lightPos r) r.end_).distanceFromSq lightPos
      ≤ c.distanceFromSq lightPos := by
  obtain ⟨-, hle, hmin⟩ := foldl_scanStep_spec lightPos r lines r.end_
  rcases hc with h | ⟨line, hl, h⟩
  · rw [h]; exact hle
  · exact not_lt.mp (hmin line hl c h)

theorem foldl_scanStep_perm (r : Line α) (lines1 lines2 : List (Line α))
    (hperm : lines1.Perm lines2) :
    lines1.foldl (scanStep r.begin r) r.end_ = lines2.foldl (scanStep r.begin r) r.end_ := by
  have h1 := isNearestHit_foldl r.begin r lines1
  have h2 := isNearestHit_foldl r.begin r lines2
  apply onSegment_eq_of_distanceFromSq_eq r _ _
    (isNearestHit_onSegment _ _ _ _ h1) (isNearestHit_onSegment _ _ _ _ h2)
  apply le_antisymm
  · apply foldl_scanStep_le
    rcases h2.1 with h | ⟨line, hl, h⟩
    · exact Or.inl h
    · exact Or.inr ⟨line, hperm.mem_iff.mpr hl, h⟩
  · apply foldl_scanStep_le
    rcases h1.1 with h | ⟨line, hl, h⟩
    · exact Or.inl h
    · exact Or.inr ⟨line, hperm.mem_iff.mp hl, h⟩

theorem sorted_sortedAngles (M : MathLib α) (lm : LightMap α) (lightPos : Vec2 α) :
    (sortedAngles M lm lightPos).Sorted (· ≤ ·) :=
  List.sorted_insertionSort (· ≤ ·) _

theorem perm_sortedAngles (M : MathLib α) (lm : LightMap α) (lightPos : Vec2 α) :
    (sortedAngles M lm lightPos).Perm (collectAngles M lm lightPos) :=
  List.perm_insertionSort (· ≤ ·) _

theorem sortedAngles_perm (M : MathLib α) (room : RectF α) (lines1 lines2 : List (Line α))
    (lightPos : Vec2 α) (hperm : lines1.Perm lines2) :
    sortedAngles M ⟨room, lines1⟩ lightPos = sortedAngles M ⟨room, lines2⟩ lightPos := by
  apply List.eq_of_perm_of_sorted _ (sorted_sortedAngles M _ _) (sorted_sortedAngles M _ _)
  refine (perm_sortedAngles M _ _).trans (List.Perm.trans ?_ (perm_sortedAngles M _ _).symm)
  exact hperm.map _

theorem castPair_perm (M : MathLib α) (room : RectF α) (lines1 lines2 : List (Line α))
    (lightPos : Vec2 α) (angle : α) (hperm : lines1.Perm lines2) :
    castPair M ⟨room, lines1⟩ lightPos angle = castPair M ⟨room, lines2⟩ lightPos angle := by
  rw [castPair_eq, castPair_eq]
  have hL := foldl_scanStep_perm (ray M ⟨room, lines1⟩ lightPos (angle - epsilon))
    lines1 lines2 hperm
  have hR := foldl_scanStep_perm (ray M ⟨room, lines1⟩ lightPos (angle + epsilon))
    lines1 lines2 hperm
  exact Prod.ext hL hR

theorem calculateCollidePoints_perm (M : MathLib α) (room : RectF α)
    (lines1 lines2 : List (Line α)) (lightPos : Vec2 α) (hperm : lines1.Perm lines2) :
    LightMap.calculateCollidePoints M ⟨room, lines1⟩ lightPos
      = LightMap.calculateCollidePoints M ⟨room, lines2⟩ lightPos := by
  unfold LightMap.calculateCollidePoints
  rw [sortedAngles_perm M room lines1 lines2 lightPos hperm]
  have hfun : castPair M ⟨room, lines1⟩ lightPos = castPair M ⟨room, lines2⟩ lightPos :=
    funext fun angle => castPair_perm M room lines1 lines2 lightPos angle hperm
  rw [hfun]

theorem calculateLightTriangles_perm (M : MathLib α) (room : RectF α)
    (lines1 lines2 : List (Line α)) (lightPos : Vec2 α) (hperm : lines1.Perm lines2) :
    LightMap.calculateLightTriangles M ⟨room, lines1⟩ lightPos
      = LightMap.calculateLightTriangles M ⟨room, lines2⟩ lightPos := by
  unfold LightMap.calculateLightTriangles
  simp only [calculateCollidePoints_perm M room lines1 lines2 lightPos hperm]

theorem contains_iff (r : RectF α) (p : Vec2 α) :
    r.contains p = true ↔ r.x ≤ p.x ∧ p.x < r.x + r.w ∧ r.y ≤ p.y ∧ p.y < r.y + r.h := by
  simp [RectF.contains, and_assoc]

theorem distanceFromSq_ray_end (M : MathLib α) (lm : LightMap α) (lightPos : Vec2 α)
    (angle : α) :
    (ray M lm lightPos angle).end_.distanceFromSq lightPos
      = maxDistance M lm * maxDistance M lm
        * (M.Sin angle * M.Sin angle + M.Cos angle * M.Cos angle) := by
  simp only [ray, Vec2.add, Vec2.mul, Vec2.rotated, Vec2.Right, Vec2.distanceFromSq]
  ring

end Lemmas

/-! ## Lemmas over the real numbers -/

section RealLemmas

theorem real_rays_not_parallel (angle : ℝ) :
    realMath.Cos (angle - epsilon) * realMath.Sin (angle + epsilon)
      - realMath.Sin (angle - epsilon) * realMath.Cos (angle + epsilon) ≠ 0 := by
  have h : realMath.Cos (angle - epsilon) * realMath.Sin (angle + epsilon)
      - realMath.Sin (angle - epsilon) * realMath.Cos (angle + epsilon)
      = Real.sin (2 * epsilon) := by
    have h2 : (2 : ℝ) * epsilon = (angle + epsilon) - (angle - epsilon) := by ring
    rw [h2, Real.sin_sub]
    simp only [realMath]
    ring
  rw [h]
  have hpos : (0 : ℝ) < 2 * epsilon := by
    unfold epsilon
    positivity
  have hlt : (2 : ℝ) * epsilon < Real.pi := by
    have h3 := Real.pi_gt_three
    have : (2 : ℝ) * epsilon < 3 := by
      unfold epsilon
      norm_num
    linarith
  exact ne_of_gt (Real.sin_pos_of_pos_of_lt_pi hpos hlt)

theorem square_room_maxDistance_ne_zero :
    maxDistance realMath (LightMap.construct (⟨0, 0, 100, 100⟩ : RectF ℝ)) ≠ 0 := by
  simp only [maxDistance, LightMap.construct, LightMap.addObjectRectF, realMath]
  have : (0 : ℝ) < Real.sqrt (100 * 100 + 100 + 100) := Real.sqrt_pos.mpr (by norm_num)
  exact ne_of_gt (by linarith)

theorem square_room_light_off_walls :
    ∀ line ∈ (LightMap.construct (⟨0, 0, 100, 100⟩ : RectF ℝ)).m_lines,
      ¬ line.OnSegment (⟨50, 50⟩ : Vec2 ℝ) := by
  intro line hl
  simp only [LightMap.construct, LightMap.addObjectRectF, List.nil_append, List.mem_cons,
    List.mem_singleton, List.not_mem_nil, or_false] at hl
  rintro ⟨u, hu0, hu1, hp⟩
  have hx := congrArg Vec2.x hp
  have hy := congrArg Vec2.y hp
  rcases hl with rfl | rfl | rfl | rfl <;>
    simp only [RectF.top, RectF.right, RectF.bottom, RectF.left, RectF.tl, RectF.tr, RectF.br,
      RectF.bl, RectF.stretched4, Vec2.add, Vec2.sub, Vec2.mul] at hx hy <;>
    norm_num at hx hy

theorem square_room_contains_centre :
    ((LightMap.construct (⟨0, 0, 100, 100⟩ : RectF ℝ)).m_room.stretched (-1)).contains
      ⟨50, 50⟩ = true := by
  simp only [LightMap.construct, LightMap.addObjectRectF, RectF.contains, RectF.stretched]
  norm_num

theorem square_room_pair_differs :
    ∀ pair ∈ (LightMap.construct (⟨0, 0, 100, 100⟩ : RectF ℝ)).calculateCollidePoints realMath
      ⟨50, 50⟩, pair.1 ≠ pair.2 := by
  intro pair hp
  rw [calculateCollidePoints_inside _ _ _ square_room_contains_centre, List.mem_map] at hp
  obtain ⟨angle, -, rfl⟩ := hp
  exact castPair_fst_ne_snd realMath _ _ angle square_room_maxDistance_ne_zero
    (real_rays_not_parallel angle) square_room_light_off_walls

theorem cos_corner_bound (e : ℝ) (he : |e| ≤ 1 / 10 ^ 10) :
    |Real.cos (Complex.arg ⟨-2, -51⟩ - e)| ≤ 1 / 15 := by
  have hz : (⟨-2, -51⟩ : ℂ) ≠ 0 := by
    intro h
    have := congrArg Complex.re h
    norm_num at this
  have habs : (51 : ℝ) ≤ Complex.abs ⟨-2, -51⟩ := by
    rw [Complex.abs_apply, Complex.normSq_mk]
    apply Real.le_sqrt_of_sq_le
    norm_num
  have hcos : |Real.cos (Complex.arg ⟨-2, -51⟩)| ≤ 2 / 51 := by
    rw [Complex.cos_arg hz]
    simp only
    rw [abs_div, abs_of_pos (lt_of_lt_of_le (by norm_num) habs)]
    norm_num
    exact div_le_div_of_nonneg_left (by norm_num) (by norm_num) habs
  have hsin : |Real.sin e| ≤ 1 / 10 ^ 10 := le_trans Real.abs_sin_le_abs he
  rw [Real.cos_sub]
  have h1 : |Real.cos (Complex.arg ⟨-2, -51⟩) * Real.cos e| ≤ 2 / 51 := by
    rw [abs_mul]
    calc |Real.cos (Complex.arg ⟨-2, -51⟩)| * |Real.cos e|
        ≤ |Real.cos (Complex.arg ⟨-2, -51⟩)| * 1 :=
          mul_le_mul_of_nonneg_left (Real.abs_cos_le_one e) (abs_nonneg _)
      _ ≤ 2 / 51 := by rw [mul_one]; exact hcos
  have h2 : |Real.sin (Complex.arg ⟨-2, -51⟩) * Real.sin e| ≤ 1 / 10 ^ 10 := by
    rw [abs_mul]
    calc |Real.sin (Complex.arg ⟨-2, -51⟩)| * |Real.sin e|
        ≤ 1 * |Real.sin e| :=
          mul_le_mul_of_nonneg_right (Real.abs_sin_le_one _) (abs_nonneg _)
      _ ≤ 1 / 10 ^ 10 := by rw [one_mul]; exact hsin
  calc |Real.cos (Complex.arg ⟨-2, -51⟩) * Real.cos e
        + Real.sin (Complex.arg ⟨-2, -51⟩) * Real.sin e|
      ≤ |Real.cos (Complex.arg ⟨-2, -51⟩) * Real.cos e|
        + |Real.sin (Complex.arg ⟨-2, -51⟩) * Real.sin e| := abs_add _ _
    _ ≤ 2 / 51 + 1 / 10 ^ 10 := add_le_add h1 h2
    _ ≤ 1 / 15 := by norm_num

theorem tall_room_maxDistance_bounds :
    0 ≤ maxDistance realMath (LightMap.construct (⟨0, 0, 4, 100⟩ : RectF ℝ)) ∧
      maxDistance realMath (LightMap.construct (⟨0, 0, 4, 100⟩ : RectF ℝ)) < 30 := by
  simp only [maxDistance, LightMap.construct, LightMap.addObjectRectF, realMath]
  have h0 : 0 ≤ Real.sqrt (4 * 4 + 100 + 100) := Real.sqrt_nonneg _
  have h1 : Real.sqrt (4 * 4 + 100 + 100) < 15 := by
    rw [Real.sqrt_lt' (by norm_num)]
    norm_num
  constructor <;> linarith

theorem tall_room_contains_centre :
    ((LightMap.construct (⟨0, 0, 4, 100⟩ : RectF ℝ)).m_room.stretched (-1)).contains
      ⟨2, 50⟩ = true := by
  simp only [LightMap.construct, LightMap.addObjectRectF, RectF.contains, RectF.stretched]
  norm_num

theorem tall_room_wall_points :
    ∀ line ∈ (LightMap.construct (⟨0, 0, 4, 100⟩ : RectF ℝ)).m_lines, ∀ p : Vec2 ℝ,
      line.OnSegment p → p.y = -1 ∨ p.x = 5 ∨ p.y = 100 ∨ p.x = 0 := by
  intro line hl p hp
  simp only [LightMap.construct, LightMap.addObjectRectF, List.nil_append, List.mem_cons,
    List.mem_singleton, List.not_mem_nil, or_false] at hl
  obtain ⟨u, -, -, hp⟩ := hp
  have hx := congrArg Vec2.x hp
  have hy := congrArg Vec2.y hp
  rcases hl with rfl | rfl | rfl | rfl <;>
    simp only [RectF.top, RectF.right, RectF.bottom, RectF.left, RectF.tl, RectF.tr, RectF.br,
      RectF.bl, RectF.stretched4, Vec2.add, Vec2.sub, Vec2.mul] at hx hy
  · left; rw [hy]; norm_num
  · right; left; rw [hx]; norm_num
  · right; right; left; rw [hy]; norm_num
  · right; right; right; rw [hx]; norm_num

theorem tall_room_ray_points (p : Vec2 ℝ)
    (h : (ray realMath (LightMap.construct (⟨0, 0, 4, 100⟩ : RectF ℝ)) ⟨2, 50⟩
      (realMath.Atan2 (-51) (-2) - epsilon)).OnSegment p) :
    0 < p.x ∧ p.x < 4 ∧ 20 < p.y ∧ p.y < 80 := by
  obtain ⟨t, ht0, ht1, hx, hy⟩ := ray_onSegment _ _ _ _ p h
  obtain ⟨hD0, hD30⟩ := tall_room_maxDistance_bounds
  have hc : |Real.cos (Complex.arg ⟨-2, -51⟩ - epsilon)| ≤ 1 / 15 :=
    cos_corner_bound epsilon (by unfold epsilon; rw [abs_of_pos (by positivity)])
  have hs : |Real.sin (Complex.arg ⟨-2, -51⟩ - epsilon)| ≤ 1 := Real.abs_sin_le_one _
  obtain ⟨D, hDdef⟩ : ∃ D : ℝ,
      D = maxDistance realMath (LightMap.construct (⟨0, 0, 4, 100⟩ : RectF ℝ)) := ⟨_, rfl⟩
  obtain ⟨c, hcdef⟩ : ∃ c : ℝ, c = Real.cos (Complex.arg ⟨-2, -51⟩ - epsilon) := ⟨_, rfl⟩
  obtain ⟨sn, hsdef⟩ : ∃ sn : ℝ, sn = Real.sin (Complex.arg ⟨-2, -51⟩ - epsilon) := ⟨_, rfl⟩
  rw [← hDdef] at hx hy hD0 hD30
  rw [← hcdef] at hc
  rw [← hsdef] at hs
  have hx2 : p.x = 2 + t * (D * c) := by rw [hx, hcdef]; rfl
  have hy2 : p.y = 50 + t * (D * sn) := by rw [hy, hsdef]; rfl
  have hDc : |D * c| < 2 := by
    rw [abs_mul, abs_of_nonneg hD0]
    calc D * |c| ≤ D * (1 / 15) := mul_le_mul_of_nonneg_left hc hD0
      _ < 2 := by linarith
  have hDs : |D * sn| < 30 := by
    rw [abs_mul, abs_of_nonneg hD0]
    calc D * |sn| ≤ D * 1 := mul_le_mul_of_nonneg_left hs hD0
      _ < 30 := by linarith
  have htc : |t * (D * c)| < 2 := by
    rw [abs_mul, abs_of_nonneg ht0]
    calc t * |D * c| ≤ 1 * |D * c| := mul_le_mul_of_nonneg_right ht1 (abs_nonneg _)
      _ < 2 := by rw [one_mul]; exact hDc
  have hts : |t * (D * sn)| < 30 := by
    rw [abs_mul, abs_of_nonneg ht0]
    calc t * |D * sn| ≤ 1 * |D * sn| := mul_le_mul_of_nonneg_right ht1 (abs_nonneg _)
      _ < 30 := by rw [one_mul]; exact hDs
  rw [abs_lt] at htc hts
  rw [hx2, hy2]
  refine ⟨?_, ?_, ?_, ?_⟩ <;> linarith [htc.1, htc.2, hts.1, hts.2]

theorem tall_room_left_ray_unobstructed :
    ∀ line ∈ (LightMap.construct (⟨0, 0, 4, 100⟩ : RectF ℝ)).m_lines,
      (ray realMath (LightMap.construct (⟨0, 0, 4, 100⟩ : RectF ℝ)) ⟨2, 50⟩
        (realMath.Atan2 (-51) (-2) - epsilon)).intersectsAt line = none := by
  intro line hl
  cases hq : (ray realMath (LightMap.construct (⟨0, 0, 4, 100⟩ : RectF ℝ)) ⟨2, 50⟩
      (realMath.Atan2 (-51) (-2) - epsilon)).intersectsAt line with
  | none => rfl
  | some q =>
    exfalso
    obtain ⟨hray, hwall⟩ := intersectsAt_some _ _ _ hq
    obtain ⟨h1, h2, h3, h4⟩ := tall_room_ray_points q hray
    rcases tall_room_wall_points line hl q hwall with h | h | h | h <;> linarith

theorem tall_room_corner_angle_mem :
    realMath.Atan2 (-51) (-2)
      ∈ sortedAngles realMath (LightMap.construct (⟨0, 0, 4, 100⟩ : RectF ℝ)) ⟨2, 50⟩ := by
  unfold sortedAngles
  rw [List.mem_insertionSort]
  simp only [collectAngles, LightMap.construct, LightMap.addObjectRectF, List.nil_append,
    List.map_cons, RectF.top, RectF.tl, RectF.stretched4, Vec2.sub]
  rw [List.mem_cons]
  left
  norm_num

end RealLemmas

/-! ## Lemmas on the double arithmetic -/

section Binary64Lemmas

theorem binary64_scanLines_eq (lightPos : Vec2 ℚ) (leftRay rightRay : Line ℚ) :
    ∀ (lines : List (Line ℚ)) (init : Vec2 ℚ × Vec2 ℚ),
      Binary64.scanLines lightPos leftRay rightRay lines init
        = (lines.foldl (Binary64.scanStep lightPos leftRay) init.1,
            lines.foldl (Binary64.scanStep lightPos rightRay) init.2) := by
  intro lines
  induction lines with
  | nil => intro init; rfl
  | cons line lines ih =>
    intro init
    have h := ih (Binary64.scanStep lightPos leftRay init.1 line,
      Binary64.scanStep lightPos rightRay init.2 line)
    simpa [Binary64.scanLines] using h

theorem binary64_castPair_eq (M : MathLib ℚ) (lm : LightMap ℚ) (lightPos : Vec2 ℚ)
    (angle : ℚ) :
    Binary64.castPair M lm lightPos angle
      = (lm.m_lines.foldl
            (Binary64.scanStep lightPos
              (Binary64.ray M lm lightPos (Binary64.fsub angle Binary64.epsilon)))
            (Binary64.ray M lm lightPos (Binary64.fsub angle Binary64.epsilon)).end_,
          lm.m_lines.foldl
            (Binary64.scanStep lightPos
              (Binary64.ray M lm lightPos (Binary64.fadd angle Binary64.epsilon)))
            (Binary64.ray M lm lightPos (Binary64.fadd angle Binary64.epsilon)).end_) := by
  unfold Binary64.castPair
  simp only [binary64_scanLines_eq]

theorem binary64_scanStep_cases (lightPos : Vec2 ℚ) (r : Line ℚ) (cur : Vec2 ℚ)
    (line : Line ℚ) :
    (Binary64.scanStep lightPos r cur line = cur ∧
        ∀ q, Binary64.intersectsAt r line = some q →
          ¬ Binary64.distanceFromSq q lightPos < Binary64.distanceFromSq cur lightPos) ∨
      (Binary64.intersectsAt r line = some (Binary64.scanStep lightPos r cur line) ∧
        Binary64.distanceFromSq (Binary64.scanStep lightPos r cur line) lightPos
          < Binary64.distanceFromSq cur lightPos) := by
  unfold Binary64.scanStep
  cases hq : Binary64.intersectsAt r line with
  | none => left; simp
  | some q =>
    by_cases hlt : Binary64.distanceFromSq q lightPos < Binary64.distanceFromSq cur lightPos
    · right; simp [hlt]
    · left
      refine ⟨by simp [hlt], ?_⟩
      intro q2 hq2
      cases hq2
      exact hlt

theorem binary64_foldl_scanStep_spec (lightPos : Vec2 ℚ) (r : Line ℚ) :
    ∀ (lines : List (Line ℚ)) (init : Vec2 ℚ),
      (lines.foldl (Binary64.scanStep lightPos r) init = init ∨
          (Binary64.distanceFromSq (lines.foldl (Binary64.scanStep lightPos r) init) lightPos
              < Binary64.distanceFromSq init lightPos ∧
            ∃ line ∈ lines, Binary64.intersectsAt r line
              = some (lines.foldl (Binary64.scanStep lightPos r) init))) ∧
        ∀ line ∈ lines, ∀ q : Vec2 ℚ, Binary64.intersectsAt r line = some q →
          ¬ Binary64.distanceFromSq q lightPos
            < Binary64.distanceFromSq (lines.foldl (Binary64.scanStep lightPos r) init)
              lightPos := by
  intro lines
  induction lines with
  | nil =>
    intro init
    exact ⟨Or.inl rfl, fun line h => absurd h (List.not_mem_nil _)⟩
  | cons line lines ih =>
    intro init
    obtain ⟨hor, hmin⟩ := ih (Binary64.scanStep lightPos r init line)
    simp only [List.foldl_cons]
    have hle : Binary64.distanceFromSq
        (lines.foldl (Binary64.scanStep lightPos r) (Binary64.scanStep lightPos r init line))
          lightPos
        ≤ Binary64.distanceFromSq (Binary64.scanStep lightPos r init line) lightPos := by
      rcases hor with h | ⟨h, -⟩
      · rw [h]
      · exact le_of_lt h
    refine ⟨?_, ?_⟩
    · rcases binary64_scanStep_cases lightPos r init line with ⟨h1, -⟩ | ⟨h1, h1lt⟩
      · rcases hor with h | ⟨hlt, l, hl, h⟩
        · left; rw [h, h1]
        · right
          exact ⟨lt_of_lt_of_eq hlt
            (congrArg (fun p => Binary64.distanceFromSq p lightPos) h1),
            l, List.mem_cons_of_mem _ hl, h⟩
      · right
        rcases hor with h | ⟨hlt, l, hl, h⟩
        · rw [h]
          exact ⟨h1lt, line, List.mem_cons_self _ _, h1⟩
        · exact ⟨lt_trans hlt h1lt, l, List.mem_cons_of_mem _ hl, h⟩
    · intro l hl q hq
      rcases List.mem_cons.mp hl with rfl | hl2
      · intro hlt
        have hlt2 : Binary64.distanceFromSq q lightPos
            < Binary64.distanceFromSq (Binary64.scanStep lightPos r init l) lightPos :=
          lt_of_lt_of_le hlt hle
        rcases binary64_scanStep_cases lightPos r init l with ⟨h1, hno⟩ | ⟨h1, -⟩
        · rw [h1] at hlt2
          exact hno q hq hlt2
        · rw [hq] at h1
          cases h1
          exact lt_irrefl _ hlt2
      · exact hmin l hl2 q hq

theorem binary64_calculateCollidePoints_inside (M : MathLib ℚ) (lm : LightMap ℚ)
    (lightPos : Vec2 ℚ)
    (h : Binary64.contains (Binary64.stretched lm.m_room (-1)) lightPos = true) :
    Binary64.calculateCollidePoints M lm lightPos
      = (Binary64.sortedAngles M lm lightPos).map (Binary64.castPair M lm lightPos) := by
  unfold Binary64.calculateCollidePoints
  simp [h]

theorem binary64_sampleMath_correctlyRounded :
    Binary64.CorrectlyRoundedSamples Binary64.sampleMath := by
  refine ⟨?_, ?_, by decide!, by decide!, by decide!, by decide!, by decide!, by decide!⟩
  · intro x _
    simp [Binary64.sampleMath]
  · intro y hy
    simp [Binary64.sampleMath, ne_of_gt hy]

theorem binary64_ray_congr (M M2 : MathLib ℚ) (lm : LightMap ℚ) (lightPos : Vec2 ℚ)
    (angle : ℚ) (hc : M.Cos angle = M2.Cos angle) (hs : M.Sin angle = M2.Sin angle)
    (hq : M.Sqrt (Binary64.fadd (Binary64.fadd (Binary64.fmul lm.m_room.w lm.m_room.w)
        lm.m_room.h) lm.m_room.h)
      = M2.Sqrt (Binary64.fadd (Binary64.fadd (Binary64.fmul lm.m_room.w lm.m_room.w)
        lm.m_room.h) lm.m_room.h)) :
    Binary64.ray M lm lightPos angle = Binary64.ray M2 lm lightPos angle := by
  simp only [Binary64.ray, Binary64.maxDistance, Binary64.rotated, hc, hs, hq]

theorem binary64_tall_contains :
    Binary64.contains (Binary64.stretched Binary64.tallRegistry.m_room (-1))
      Binary64.tallLight = true := by
  decide!

theorem binary64_tall_maxDistance (M : MathLib ℚ) (hM : Binary64.CorrectlyRoundedSamples M) :
    Binary64.maxDistance M Binary64.tallRegistry = 40 := by
  have harg : Binary64.fadd (Binary64.fadd
      (Binary64.fmul Binary64.tallRegistry.m_room.w Binary64.tallRegistry.m_room.w)
      Binary64.tallRegistry.m_room.h) Binary64.tallRegistry.m_room.h = 400 := by
    decide!
  unfold Binary64.maxDistance
  rw [harg, hM.2.2.2.2.2.2.2]
  decide!

theorem binary64_tall_ray (M : MathLib ℚ) (hM : Binary64.CorrectlyRoundedSamples M) :
    Binary64.ray M Binary64.tallRegistry Binary64.tallLight
        (Binary64.fsub Binary64.halfPi Binary64.epsilon)
      = Binary64.ray Binary64.sampleMath Binary64.tallRegistry Binary64.tallLight
        (Binary64.fsub Binary64.halfPi Binary64.epsilon) := by
  have hS := binary64_sampleMath_correctlyRounded
  have harg : Binary64.fadd (Binary64.fadd
      (Binary64.fmul Binary64.tallRegistry.m_room.w Binary64.tallRegistry.m_room.w)
      Binary64.tallRegistry.m_room.h) Binary64.tallRegistry.m_room.h = 400 := by
    decide!
  apply binary64_ray_congr
  · rw [hM.2.2.2.2.2.1, hS.2.2.2.2.2.1]
  · rw [hM.2.2.2.2.1, hS.2.2.2.2.1]
  · rw [harg, hM.2.2.2.2.2.2.2, hS.2.2.2.2.2.2.2]

theorem binary64_tall_far_end_returned :
    Binary64.tallRegistry.m_lines.foldl
        (Binary64.scanStep Binary64.tallLight
          (Binary64.ray Binary64.sampleMath Binary64.tallRegistry Binary64.tallLight
            (Binary64.fsub Binary64.halfPi Binary64.epsilon)))
        (Binary64.ray Binary64.sampleMath Binary64.tallRegistry Binary64.tallLight
          (Binary64.fsub Binary64.halfPi Binary64.epsilon)).end_
      = (Binary64.ray Binary64.sampleMath Binary64.tallRegistry Binary64.tallLight
          (Binary64.fsub Binary64.halfPi Binary64.epsilon)).end_ ∧
    (40 : ℚ) * 40
      < (Binary64.ray Binary64.sampleMath Binary64.tallRegistry Binary64.tallLight
          (Binary64.fsub Binary64.halfPi Binary64.epsilon)).end_.distanceFromSq
        Binary64.tallLight := by
  constructor <;> decide!

theorem binary64_tall_halfPi_mem (M : MathLib ℚ) (hM : Binary64.CorrectlyRoundedSamples M) :
    Binary64.halfPi ∈ Binary64.sortedAngles M Binary64.tallRegistry Binary64.tallLight := by
  unfold Binary64.sortedAngles
  rw [List.mem_insertionSort]
  unfold Binary64.collectAngles
  rw [List.mem_map]
  refine ⟨⟨⟨0, 50⟩, ⟨1, 60⟩⟩, by decide!, ?_⟩
  have hx : (Binary64.vsub (⟨0, 50⟩ : Vec2 ℚ) Binary64.tallLight).x = 0 := by decide!
  have hy : 0 < (Binary64.vsub (⟨0, 50⟩ : Vec2 ℚ) Binary64.tallLight).y := by decide!
  simp only [hx]
  exact hM.2.1 _ hy

theorem binary64_tall_point_beyond (M : MathLib ℚ)
    (hM : Binary64.CorrectlyRoundedSamples M) :
    ∃ pair ∈ Binary64.calculateCollidePoints M Binary64.tallRegistry Binary64.tallLight,
      pair.1 = (Binary64.ray M Binary64.tallRegistry Binary64.tallLight
          (Binary64.fsub Binary64.halfPi Binary64.epsilon)).end_ ∧
      Binary64.maxDistance M Binary64.tallRegistry
          * Binary64.maxDistance M Binary64.tallRegistry
        < pair.1.distanceFromSq Binary64.tallLight := by
  refine ⟨Binary64.castPair M Binary64.tallRegistry Binary64.tallLight Binary64.halfPi,
    ?_, ?_, ?_⟩
  · rw [binary64_calculateCollidePoints_inside _ _ _ binary64_tall_contains]
    exact List.mem_map_of_mem _ (binary64_tall_halfPi_mem M hM)
  · rw [binary64_castPair_eq]
    simp only
    rw [binary64_tall_ray M hM]
    exact binary64_tall_far_end_returned.1
  · rw [binary64_castPair_eq]
    simp only
    rw [binary64_tall_ray M hM, binary64_tall_maxDistance M hM,
      binary64_tall_far_end_returned.1]
    exact binary64_tall_far_end_returned.2

end Binary64Lemmas

/-! ## The guard and the size of the result -/

section Claims

variable {α : Type} [LinearOrderedField α]

/-- C1: for every registry and every `lightPos` that the room inset by one
unit on all four sides does not contain, `calculateCollidePoints` returns the
empty sequence, whatever segments are registered. -/
theorem C1_outside_inset_room_empty (M : MathLib α) (m_room : RectF α)
    (m_lines : List (Line α)) (lightPos : Vec2 α)
    (h : (m_room.stretched (-1)).contains lightPos = false) :
    LightMap.calculateCollidePoints M ⟨m_room, m_lines⟩ lightPos = [] :=
  calculateCollidePoints_outside M ⟨m_room, m_lines⟩ lightPos h

/-- Witness of C1: the light at the corner `(0, 0)` of the room
`Rect(0, 0, 100, 100)`, with the four room segments registered. -/
theorem C1_outside_inset_room_empty_witness :
    ((⟨0, 0, 100, 100⟩ : RectF ℝ).stretched (-1)).contains ⟨0, 0⟩ = false ∧
      LightMap.calculateCollidePoints realMath
        ⟨⟨0, 0, 100, 100⟩, (LightMap.construct (⟨0, 0, 100, 100⟩ : RectF ℝ)).m_lines⟩
        ⟨0, 0⟩ = [] :=
  ⟨by simp [RectF.contains, RectF.stretched],
    C1_outside_inset_room_empty realMath _ _ _ (by simp [RectF.contains, RectF.stretched])⟩

/-- C2: for every registry reachable from construction by `addObject` calls
and every `lightPos` inside the inset room, `calculateCollidePoints` returns
exactly one pair per registered segment (equal angles are not merged), hence
at least four pairs; for the room `Rect(0, 0, 100, 100)` without obstacles and
the light at `(50, 50)` it returns exactly four pairs. -/
theorem C2_one_pair_per_segment (M : MathLib α) (lm : LightMap α) (lightPos : Vec2 α)
    (hr : Reachable M lm) (hc : (lm.m_room.stretched (-1)).contains lightPos = true) :
    (lm.calculateCollidePoints M lightPos).length = lm.m_lines.length ∧
      4 ≤ (lm.calculateCollidePoints M lightPos).length ∧
      ((LightMap.construct (⟨0, 0, 100, 100⟩ : RectF α)).calculateCollidePoints M
        ⟨50, 50⟩).length = 4 := by
  have hlen := length_calculateCollidePoints_inside M lm lightPos hc
  refine ⟨hlen, ?_, ?_⟩
  · rw [hlen]
    exact four_le_length_of_reachable M hr
  · rw [length_calculateCollidePoints_inside, length_construct]
    simp only [LightMap.construct, LightMap.addObjectRectF, RectF.contains, RectF.stretched]
    norm_num

/-- Witness of C2: the room `Rect(0, 0, 100, 100)` with one triangle added and
the light at `(50, 50)`. -/
theorem C2_one_pair_per_segment_witness :
    Reachable realMath
        ((LightMap.construct (⟨0, 0, 100, 100⟩ : RectF ℝ)).addObjectTriangle
          ⟨⟨10, 10⟩, ⟨20, 10⟩, ⟨10, 20⟩⟩) ∧
      ((⟨0, 0, 100, 100⟩ : RectF ℝ).stretched (-1)).contains ⟨50, 50⟩ = true ∧
      (((LightMap.construct (⟨0, 0, 100, 100⟩ : RectF ℝ)).addObjectTriangle
          ⟨⟨10, 10⟩, ⟨20, 10⟩, ⟨10, 20⟩⟩).calculateCollidePoints realMath ⟨50, 50⟩).length
        = 7 :=
  ⟨Reachable.addTriangle _ (Reachable.construct _),
    by simp only [RectF.contains, RectF.stretched]; norm_num,
    (C2_one_pair_per_segment realMath
      ((LightMap.construct (⟨0, 0, 100, 100⟩ : RectF ℝ)).addObjectTriangle
        ⟨⟨10, 10⟩, ⟨20, 10⟩, ⟨10, 20⟩⟩) ⟨50, 50⟩
      (Reachable.addTriangle _ (Reachable.construct _))
      (by
        simp only [LightMap.addObjectTriangle, LightMap.construct, LightMap.addObjectRectF,
          RectF.contains, RectF.stretched]
        norm_num)).1.trans
      (by simp [LightMap.addObjectTriangle, LightMap.construct, LightMap.addObjectRectF])⟩

/-- C3: if `calculateCollidePoints(lightPos)` returns the `n` pairs
`c[0..n-1]`, then `calculateLightTriangles(lightPos)` returns exactly `n`
triangles and triangle `i` is `(lightPos, c[i].second, c[(i+1) mod n].first)`;
the last triangle ends at `c[0].first`, and every triangle has `lightPos` as
its first vertex. -/
theorem C3_triangle_fan (M : MathLib α) (lm : LightMap α) (lightPos : Vec2 α) :
    ∃ ts : List (Triangle α),
      lm.calculateLightTriangles M lightPos = some ts ∧
      ts.length = (lm.calculateCollidePoints M lightPos).length ∧
      (∀ (i : Nat) (h : i < (lm.calculateCollidePoints M lightPos).length),
        ts[i]? = some
          ⟨lightPos, ((lm.calculateCollidePoints M lightPos).get ⟨i, h⟩).2,
            ((lm.calculateCollidePoints M lightPos).get
              ⟨(i + 1) % (lm.calculateCollidePoints M lightPos).length,
                Nat.mod_lt _ (Nat.lt_of_le_of_lt (Nat.zero_le i) h)⟩).1⟩) ∧
      (∀ h0 : 0 < (lm.calculateCollidePoints M lightPos).length,
        (ts[(lm.calculateCollidePoints M lightPos).length - 1]?).map Triangle.p2
          = some ((lm.calculateCollidePoints M lightPos).get ⟨0, h0⟩).1) ∧
      (∀ t ∈ ts, t.p0 = lightPos) := by
  refine ⟨_, calculateLightTriangles_eq M lm lightPos, by simp, ?_, ?_, ?_⟩
  · intro i h
    simp [h, fanTriangleAt]
  · intro h0
    have h1 : (lm.calculateCollidePoints M lightPos).length - 1
        < (lm.calculateCollidePoints M lightPos).length := by omega
    have h2 : (lm.calculateCollidePoints M lightPos).length - 1 + 1
        = (lm.calculateCollidePoints M lightPos).length := by omega
    simp [h1, fanTriangleAt, h2]
  · intro t ht
    simp only [List.mem_map, List.mem_range] at ht
    obtain ⟨i, hi, rfl⟩ := ht
    simp [fanTriangleAt, hi]

/-- C4: whenever `calculateCollidePoints` returns the empty sequence (the
light is outside the inset room), `calculateLightTriangles` returns the empty
sequence; it returns a value, so `(i + 1) mod n` is not evaluated with
`n = 0`. -/
theorem C4_empty_fan (M : MathLib α) (lm : LightMap α) (lightPos : Vec2 α)
    (h : lm.calculateCollidePoints M lightPos = []) :
    lm.calculateLightTriangles M lightPos = some [] := by
  rw [calculateLightTriangles_eq, h]
  rfl

/-- Witness of C4: the room `Rect(0, 0, 100, 100)` and the light at its corner
`(0, 0)`. -/
theorem C4_empty_fan_witness :
    (LightMap.construct (⟨0, 0, 100, 100⟩ : RectF ℝ)).calculateCollidePoints realMath
        ⟨0, 0⟩ = [] ∧
      (LightMap.construct (⟨0, 0, 100, 100⟩ : RectF ℝ)).calculateLightTriangles realMath
        ⟨0, 0⟩ = some [] :=
  ⟨calculateCollidePoints_outside _ _ _
      (by simp [LightMap.construct, LightMap.addObjectRectF, RectF.contains, RectF.stretched]),
    C4_empty_fan _ _ _ (calculateCollidePoints_outside _ _ _
      (by simp [LightMap.construct, LightMap.addObjectRectF, RectF.contains, RectF.stretched]))⟩

/-! ## Consecutive triangles of the fan -/

/-- Counterexample to C5: in the room `Rect(0, 0, 100, 100)` without obstacles
and with the light at `(50, 50)`, a valid light position, the fan does not
satisfy "the third vertex of triangle `i` is the second vertex of triangle
`(i + 1) mod n`" for every `i`: the two vertices are the left and the right hit
of one angle sample, which lie on different rays. -/
theorem C5_shared_far_vertex_counterexample :
    ((LightMap.construct (⟨0, 0, 100, 100⟩ : RectF ℝ)).m_room.stretched (-1)).contains
        ⟨50, 50⟩ = true ∧
      ¬ ∀ ts : List (Triangle ℝ),
        (LightMap.construct (⟨0, 0, 100, 100⟩ : RectF ℝ)).calculateLightTriangles realMath
          ⟨50, 50⟩ = some ts →
        ∀ (i : Nat) (t t2 : Triangle ℝ), ts[i]? = some t →
          ts[(i + 1) % ts.length]? = some t2 → t.p2 = t2.p1 := by
  refine ⟨square_room_contains_centre, ?_⟩
  intro hall
  have hc := square_room_contains_centre
  have hlen : ((LightMap.construct (⟨0, 0, 100, 100⟩ : RectF ℝ)).calculateCollidePoints
      realMath ⟨50, 50⟩).length = 4 := by
    rw [length_calculateCollidePoints_inside _ _ _ hc, length_construct]
  have hts := calculateLightTriangles_eq realMath
    (LightMap.construct (⟨0, 0, 100, 100⟩ : RectF ℝ)) ⟨50, 50⟩
  have h := hall _ hts 0 _ _ (by simp [hlen]; rfl) (by simp [hlen]; rfl)
  simp only [fanTriangleAt, hlen] at h
  norm_num at h
  have hmem := List.getElem_mem (l := (LightMap.construct
    (⟨0, 0, 100, 100⟩ : RectF ℝ)).calculateCollidePoints realMath ⟨50, 50⟩) (n := 1)
    (by rw [hlen]; norm_num)
  exact square_room_pair_differs _ hmem h

/-- C5 as amended: for every valid light position the fan has one triangle per
sorted angle sample, and two consecutive triangles (the last and the first
included) meet at `lightPos` and at one sample: triangle `i` ends at the left
point and triangle `(i + 1) mod n` begins at the right point of the pair of
sample `(i + 1) mod n`, the nearest hits of the rays at `angle - ε` and
`angle + ε`. -/
theorem C5_consecutive_triangles_meet_at_sample (M : MathLib α) (lm : LightMap α)
    (lightPos : Vec2 α) (hc : (lm.m_room.stretched (-1)).contains lightPos = true) :
    ∃ ts : List (Triangle α),
      lm.calculateLightTriangles M lightPos = some ts ∧
      ts.length = (sortedAngles M lm lightPos).length ∧
      ∀ i : Nat, i < ts.length →
        ∃ (angle : α) (t t2 : Triangle α),
          (sortedAngles M lm lightPos)[(i + 1) % ts.length]? = some angle ∧
          ts[i]? = some t ∧ ts[(i + 1) % ts.length]? = some t2 ∧
          t.p0 = lightPos ∧ t2.p0 = lightPos ∧
          t.p2 = (castPair M lm lightPos angle).1 ∧
          t2.p1 = (castPair M lm lightPos angle).2 ∧
          IsNearestHit lightPos (ray M lm lightPos (angle - epsilon)) lm.m_lines t.p2 ∧
          IsNearestHit lightPos (ray M lm lightPos (angle + epsilon)) lm.m_lines t2.p1 := by
  have hcp := calculateCollidePoints_inside M lm lightPos hc
  have hlen : (lm.calculateCollidePoints M lightPos).length
      = (sortedAngles M lm lightPos).length := by rw [hcp, List.length_map]
  refine ⟨_, calculateLightTriangles_eq M lm lightPos, by simp [hlen], ?_⟩
  intro i hi
  simp only [List.length_map, List.length_range] at hi ⊢
  have hpos : 0 < (lm.calculateCollidePoints M lightPos).length :=
    Nat.lt_of_le_of_lt (Nat.zero_le i) hi
  have hj : (i + 1) % (lm.calculateCollidePoints M lightPos).length
      < (lm.calculateCollidePoints M lightPos).length := Nat.mod_lt _ hpos
  have hj2 : (i + 1) % (lm.calculateCollidePoints M lightPos).length
      < (sortedAngles M lm lightPos).length := by rw [← hlen]; exact hj
  have hpair : (lm.calculateCollidePoints M lightPos).get
      ⟨(i + 1) % (lm.calculateCollidePoints M lightPos).length, hj⟩
      = castPair M lm lightPos ((sortedAngles M lm lightPos).get
        ⟨(i + 1) % (lm.calculateCollidePoints M lightPos).length, hj2⟩) := by
    simp only [List.get_eq_getElem]
    simp only [hcp, List.getElem_map]
  refine ⟨(sortedAngles M lm lightPos).get ⟨_, hj2⟩,
    fanTriangleAt lightPos (lm.calculateCollidePoints M lightPos) i,
    fanTriangleAt lightPos (lm.calculateCollidePoints M lightPos)
      ((i + 1) % (lm.calculateCollidePoints M lightPos).length),
    by simp [List.getElem?_eq_getElem hj2], by simp [hi], by simp [hj], ?_, ?_, ?_, ?_, ?_, ?_⟩
  · simp [fanTriangleAt, hi]
  · simp [fanTriangleAt, hj]
  · simp only [fanTriangleAt, hi, dite_true]
    rw [hpair]
  · simp only [fanTriangleAt, hj, dite_true]
    rw [hpair]
  · simp only [fanTriangleAt, hi, dite_true]
    rw [hpair, castPair_eq]
    exact isNearestHit_foldl lightPos _ lm.m_lines
  · simp only [fanTriangleAt, hj, dite_true]
    rw [hpair, castPair_eq]
    exact isNearestHit_foldl lightPos _ lm.m_lines

/-- Witness of the amended C5: the room `Rect(0, 0, 100, 100)` without
obstacles and the light at `(50, 50)`. -/
theorem C5_consecutive_triangles_meet_at_sample_witness :
    ((LightMap.construct (⟨0, 0, 100, 100⟩ : RectF ℝ)).m_room.stretched (-1)).contains
        ⟨50, 50⟩ = true ∧
      ∃ ts : List (Triangle ℝ),
        (LightMap.construct (⟨0, 0, 100, 100⟩ : RectF ℝ)).calculateLightTriangles realMath
          ⟨50, 50⟩ = some ts ∧ ts.length = 4 := by
  refine ⟨square_room_contains_centre, ?_⟩
  obtain ⟨ts, h1, h2, -⟩ := C5_consecutive_triangles_meet_at_sample realMath
    (LightMap.construct (⟨0, 0, 100, 100⟩ : RectF ℝ)) ⟨50, 50⟩ square_room_contains_centre
  exact ⟨ts, h1, by rw [h2, length_sortedAngles, length_construct]⟩

/-! ## Nearest-hit resolution -/

/-- C6: for every `lightPos` inside the inset room, the result has one pair per
sorted angle sample, and for the sample `angle` at position `k` the left point
of pair `k` is a nearest hit of the ray at `angle - ε` and the right point a
nearest hit of the ray at `angle + ε`: each is the far end point of its ray or
the intersection of the ray with a registered segment, no intersection of the
ray with a registered segment is strictly nearer to `lightPos`, and it is the
far end point when no registered segment intersects the ray. -/
theorem C6_nearest_hit (M : MathLib α) (lm : LightMap α) (lightPos : Vec2 α)
    (hc : (lm.m_room.stretched (-1)).contains lightPos = true) :
    (lm.calculateCollidePoints M lightPos).length = (sortedAngles M lm lightPos).length ∧
      ∀ (k : Nat) (angle : α), (sortedAngles M lm lightPos)[k]? = some angle →
        ∃ pair : Vec2 α × Vec2 α,
          (lm.calculateCollidePoints M lightPos)[k]? = some pair ∧
          IsNearestHit lightPos (ray M lm lightPos (angle - epsilon)) lm.m_lines pair.1 ∧
          IsNearestHit lightPos (ray M lm lightPos (angle + epsilon)) lm.m_lines pair.2 := by
  rw [calculateCollidePoints_inside M lm lightPos hc]
  refine ⟨List.length_map _ _, ?_⟩
  intro k angle hk
  refine ⟨castPair M lm lightPos angle, by simp [hk], ?_, ?_⟩
  · rw [castPair_eq]
    exact isNearestHit_foldl lightPos _ lm.m_lines
  · rw [castPair_eq]
    exact isNearestHit_foldl lightPos _ lm.m_lines

/-- Witness of C6: the room `Rect(0, 0, 100, 100)` without obstacles and the
light at `(50, 50)`. -/
theorem C6_nearest_hit_witness :
    ((LightMap.construct (⟨0, 0, 100, 100⟩ : RectF ℝ)).m_room.stretched (-1)).contains
        ⟨50, 50⟩ = true ∧
      ((LightMap.construct (⟨0, 0, 100, 100⟩ : RectF ℝ)).calculateCollidePoints realMath
        ⟨50, 50⟩).length
        = (sortedAngles realMath (LightMap.construct (⟨0, 0, 100, 100⟩ : RectF ℝ))
            ⟨50, 50⟩).length :=
  ⟨by
      simp only [LightMap.construct, LightMap.addObjectRectF, RectF.contains, RectF.stretched]
      norm_num,
    (C6_nearest_hit realMath (LightMap.construct (⟨0, 0, 100, 100⟩ : RectF ℝ)) ⟨50, 50⟩
      (by
        simp only [LightMap.construct, LightMap.addObjectRectF, RectF.contains,
          RectF.stretched]
        norm_num)).1⟩

/-! ## The length of the rays -/

/-- C7, the code at a failing input: in the room `Rect(0, 0, 4, 100)` without
obstacles and with the light at its centre `(2, 50)`, the result holds a pair
whose left point is the far end point of its ray (the ray towards the corner
`(0, -1)`, of length `2·sqrt(4·4 + 100 + 100) < 30`) and lies on none of the
four registered room segments: the ray ends short of the wall. -/
theorem C7_tall_room_ray_ends_short :
    (⟨0, 0, 4, 100⟩ : RectF ℝ).center = ⟨2, 50⟩ ∧
      ∃ pair ∈ (LightMap.construct (⟨0, 0, 4, 100⟩ : RectF ℝ)).calculateCollidePoints realMath
          ⟨2, 50⟩,
        pair.1 = (ray realMath (LightMap.construct (⟨0, 0, 4, 100⟩ : RectF ℝ)) ⟨2, 50⟩
          (realMath.Atan2 (-51) (-2) - epsilon)).end_ ∧
        ∀ line ∈ (LightMap.construct (⟨0, 0, 4, 100⟩ : RectF ℝ)).m_lines,
          ¬ line.OnSegment pair.1 := by
  refine ⟨by simp only [RectF.center, Vec2.mk.injEq]; norm_num, ?_⟩
  refine ⟨castPair realMath (LightMap.construct (⟨0, 0, 4, 100⟩ : RectF ℝ)) ⟨2, 50⟩
    (realMath.Atan2 (-51) (-2)), ?_, ?_, ?_⟩
  · rw [calculateCollidePoints_inside _ _ _ tall_room_contains_centre]
    exact List.mem_map_of_mem _ tall_room_corner_angle_mem
  · rw [castPair_eq]
    exact (isNearestHit_foldl _ _ _).2.2 tall_room_left_ray_unobstructed
  · have hend : (castPair realMath (LightMap.construct (⟨0, 0, 4, 100⟩ : RectF ℝ)) ⟨2, 50⟩
        (realMath.Atan2 (-51) (-2))).1
        = (ray realMath (LightMap.construct (⟨0, 0, 4, 100⟩ : RectF ℝ)) ⟨2, 50⟩
          (realMath.Atan2 (-51) (-2) - epsilon)).end_ := by
      rw [castPair_eq]
      exact (isNearestHit_foldl _ _ _).2.2 tall_room_left_ray_unobstructed
    intro line hl hon
    rw [hend] at hon
    obtain ⟨h1, h2, h3, h4⟩ := tall_room_ray_points _ (ray_end_onSegment _ _ _ _)
    rcases tall_room_wall_points line hl _ hon with h | h | h | h <;> linarith

/-! ## Decomposition of the shapes into segments -/

/-- C8: for every rectangle `Rect(x, y, w, h)`, `addObject(rect)` appends
exactly four segments; they form a closed loop (each ends where the next
begins, the last ends where the first begins) through the corners of the
rectangle stretched by `(0, 1, 1, 0)`: the top edge lies at `y - 1` and the
right edge at `x + w + 1` (both moved outward by one unit), the bottom edge
at `y + h` and the left edge at `x` (both unchanged). -/
theorem C8_rect_four_segments_closed_loop (lm : LightMap α) (rect : RectF α) :
    ∃ s0 s1 s2 s3 : Line α,
      (lm.addObjectRectF rect).m_lines = lm.m_lines ++ [s0, s1, s2, s3] ∧
      (s0.end_ = s1.begin ∧ s1.end_ = s2.begin ∧ s2.end_ = s3.begin ∧ s3.end_ = s0.begin) ∧
      (s0.begin = (rect.stretched4 0 1 1 0).tl ∧ s1.begin = (rect.stretched4 0 1 1 0).tr ∧
        s2.begin = (rect.stretched4 0 1 1 0).br ∧ s3.begin = (rect.stretched4 0 1 1 0).bl) ∧
      (s0.begin = ⟨rect.x, rect.y - 1⟩ ∧ s1.begin = ⟨rect.x + rect.w + 1, rect.y - 1⟩ ∧
        s2.begin = ⟨rect.x + rect.w + 1, rect.y + rect.h⟩ ∧
        s3.begin = ⟨rect.x, rect.y + rect.h⟩) := by
  refine ⟨_, _, _, _, rfl, ⟨rfl, rfl, rfl, rfl⟩, ⟨rfl, rfl, rfl, rfl⟩, ?_, ?_, ?_, ?_⟩ <;>
    simp only [RectF.top, RectF.right, RectF.bottom, RectF.left, RectF.tl, RectF.tr, RectF.br,
      RectF.bl, RectF.stretched4, Vec2.mk.injEq, sub_zero, add_zero] <;>
    constructor <;> first | rfl | trivial | ring

/-- C9: for every circle `(center, r)` and every integer `quality` (also
below 6, zero or negative), `addObject(circle, quality)` appends exactly
`q = max(quality, 6)` segments; segment `i` joins the points of the circle of
radius `r` about `center` at the angles `2π/q · i` and `2π/q · (i + 1)`.  Both
points of every segment are at distance `|r|` from `center` (`r` for a radius
that is not negative), each segment ends where the next begins, and over the
reals the last segment ends where the first begins. -/
theorem C9_circle_segments (lm : LightMap ℝ) (circle : Circle ℝ) (quality : Int) :
    ∃ ls : List (Line ℝ),
      (lm.addObjectCircle realMath circle quality).m_lines = lm.m_lines ++ ls ∧
      ls.length = (max quality 6).toNat ∧
      (∀ i : Nat, i < (max quality 6).toNat →
        ls[i]? = some
          ⟨(Circular realMath circle.r
              (2 * Real.pi / ((max quality 6 : Int) : ℝ) * (i : ℝ))).add circle.center,
            (Circular realMath circle.r
              (2 * Real.pi / ((max quality 6 : Int) : ℝ) * ((i + 1 : Nat) : ℝ))).add
              circle.center⟩) ∧
      (∀ l ∈ ls, Real.sqrt (l.begin.distanceFromSq circle.center) = |circle.r| ∧
        Real.sqrt (l.end_.distanceFromSq circle.center) = |circle.r|) ∧
      (∀ i : Nat, i + 1 < (max quality 6).toNat →
        (ls[i]?).map Line.end_ = (ls[i + 1]?).map Line.begin) ∧
      (∃ first last : Line ℝ, ls[0]? = some first ∧
        ls[(max quality 6).toNat - 1]? = some last ∧ last.end_ = first.begin) := by
  have hq : (6 : Int) ≤ max quality 6 := le_max_right _ _
  have hqn : 6 ≤ (max quality 6).toNat := by omega
  have hcast : (((max quality 6).toNat : Nat) : ℝ) = ((max quality 6 : Int) : ℝ) := by
    have h0 : ((max quality 6).toNat : Int) = max quality 6 := Int.toNat_of_nonneg (by omega)
    exact_mod_cast h0
  have hne : ((max quality 6 : Int) : ℝ) ≠ 0 := by
    have : (0 : Int) < max quality 6 := by omega
    exact_mod_cast (ne_of_gt this)
  have hunit : ∀ t, realMath.Sin t * realMath.Sin t + realMath.Cos t * realMath.Cos t = 1 := by
    intro t
    have := Real.sin_sq_add_cos_sq t
    simp only [realMath]
    nlinarith [this]
  have hget := circleLines_getElem? realMath circle (max quality 6)
  refine ⟨circleLines realMath circle (max quality 6), rfl, circleLines_length _ _ _,
    fun i hi => hget i hi, ?_, ?_, ?_⟩
  · intro l hl
    obtain ⟨i, hi, hli⟩ := List.getElem_of_mem hl
    rw [circleLines_length] at hi
    have h1 := hget i hi
    rw [List.getElem?_eq_getElem (by rw [circleLines_length]; exact hi), hli] at h1
    cases h1
    simp only [distanceFromSq_circular realMath hunit]
    exact ⟨Real.sqrt_mul_self_eq_abs _, Real.sqrt_mul_self_eq_abs _⟩
  · intro i hi
    rw [hget i (by omega), hget (i + 1) hi]
    simp
  · have hlast := hget ((max quality 6).toNat - 1) (by omega)
    have hsucc : (max quality 6).toNat - 1 + 1 = (max quality 6).toNat := by omega
    refine ⟨_, _, hget 0 (by omega), hlast, ?_⟩
    simp only [hsucc, hcast, Nat.cast_zero, mul_zero]
    rw [div_mul_cancel₀ _ hne]
    simp [Circular, realMath]

/-- C10: for a triangle, a quad and a polygon with outer ring `v[0..n-1]`,
`addObject` appends exactly `n` segments (3 for a triangle, 4 for a quad),
segment `i` running from `v[i]` to `v[(i + 1) mod n]`; for a polygon it always
returns a value (no modulo by zero is evaluated), and with an empty outer ring
it appends nothing. -/
theorem C10_closed_loop_through_vertices (lm : LightMap α) (triangle : Triangle α)
    (quad : Quad α) (outer : List (Vec2 α)) :
    (∃ ls : List (Line α), (lm.addObjectTriangle triangle).m_lines = lm.m_lines ++ ls ∧
        ls.length = 3 ∧ IsClosedLoop [triangle.p0, triangle.p1, triangle.p2] ls) ∧
      (∃ ls : List (Line α), (lm.addObjectQuad quad).m_lines = lm.m_lines ++ ls ∧
        ls.length = 4 ∧ IsClosedLoop [quad.p0, quad.p1, quad.p2, quad.p3] ls) ∧
      (∃ ls : List (Line α),
        lm.addObjectPolygon outer = some ⟨lm.m_room, lm.m_lines ++ ls⟩ ∧
        ls.length = outer.length ∧ IsClosedLoop outer ls) ∧
      lm.addObjectPolygon [] = some lm := by
  refine ⟨⟨_, rfl, rfl, rfl, ?_⟩, ⟨_, rfl, rfl, rfl, ?_⟩,
    ⟨_, addObjectPolygon_eq lm outer, by simp, isClosedLoop_range_map outer⟩, ?_⟩
  · intro i h
    have h3 : i < 3 := h
    interval_cases i <;> simp
  · intro i h
    have h4 : i < 4 := h
    interval_cases i <;> first | rfl | (simp; done) | (simp; rfl)
  · rw [addObjectPolygon_eq]
    simp

/-! ## The registry over time -/

/-- C11: the registry only grows: for every `addObject` overload and every
registry, the segment list before the call is a prefix of the list after it
(the polygon overload always returns); so in every state reachable from
`LightMap(room)` the first four registered segments are the four segments of
the stretched room. -/
theorem C11_registry_only_grows (M : MathLib α) (lm0 : LightMap α) (triangle : Triangle α)
    (rect : RectF α) (quad : Quad α) (circle : Circle α) (quality : Int)
    (outer : List (Vec2 α)) (room : RectF α) (lm : LightMap α)
    (hr : ReachableFrom M room lm) :
    (lm0.m_lines <+: (lm0.addObjectTriangle triangle).m_lines ∧
      lm0.m_lines <+: (lm0.addObjectRectF rect).m_lines ∧
      lm0.m_lines <+: (lm0.addObjectQuad quad).m_lines ∧
      lm0.m_lines <+: (lm0.addObjectCircle M circle quality).m_lines ∧
      ∃ lm1 : LightMap α, lm0.addObjectPolygon outer = some lm1 ∧
        lm0.m_lines <+: lm1.m_lines) ∧
      lm.m_lines.take 4
        = [(room.stretched4 0 1 1 0).top, (room.stretched4 0 1 1 0).right,
            (room.stretched4 0 1 1 0).bottom, (room.stretched4 0 1 1 0).left] := by
  refine ⟨⟨List.prefix_append _ _, List.prefix_append _ _, List.prefix_append _ _,
    List.prefix_append _ _, _, addObjectPolygon_eq lm0 outer, List.prefix_append _ _⟩, ?_⟩
  have hpre := room_prefix_of_reachableFrom M hr
  rw [List.prefix_iff_eq_take, length_construct] at hpre
  rw [← hpre, construct_m_lines]

/-- Witness of C11: the room `Rect(0, 0, 100, 100)` with one triangle added. -/
theorem C11_registry_only_grows_witness :
    ReachableFrom realMath (⟨0, 0, 100, 100⟩ : RectF ℝ)
        ((LightMap.construct (⟨0, 0, 100, 100⟩ : RectF ℝ)).addObjectTriangle
          ⟨⟨10, 10⟩, ⟨20, 10⟩, ⟨10, 20⟩⟩) ∧
      (((LightMap.construct (⟨0, 0, 100, 100⟩ : RectF ℝ)).addObjectTriangle
          ⟨⟨10, 10⟩, ⟨20, 10⟩, ⟨10, 20⟩⟩).m_lines.take 4
        = [((⟨0, 0, 100, 100⟩ : RectF ℝ).stretched4 0 1 1 0).top,
            ((⟨0, 0, 100, 100⟩ : RectF ℝ).stretched4 0 1 1 0).right,
            ((⟨0, 0, 100, 100⟩ : RectF ℝ).stretched4 0 1 1 0).bottom,
            ((⟨0, 0, 100, 100⟩ : RectF ℝ).stretched4 0 1 1 0).left]) :=
  ⟨ReachableFrom.addTriangle _ ReachableFrom.construct,
    (C11_registry_only_grows realMath (LightMap.construct ⟨0, 0, 100, 100⟩)
      ⟨⟨10, 10⟩, ⟨20, 10⟩, ⟨10, 20⟩⟩ ⟨0, 0, 1, 1⟩ ⟨⟨0, 0⟩, ⟨1, 0⟩, ⟨1, 1⟩, ⟨0, 1⟩⟩
      ⟨⟨0, 0⟩, 1⟩ 8 [] ⟨0, 0, 100, 100⟩ _
      (ReachableFrom.addTriangle _ ReachableFrom.construct)).2⟩

/-- C12: for every room passed at construction and every later sequence of
`addObject` calls, `getRoom()` returns exactly the rectangle that was supplied
(not the stretched rectangle whose segments are registered). -/
theorem C12_getRoom_returns_supplied_room (M : MathLib α) (room : RectF α) (lm : LightMap α)
    (hr : ReachableFrom M room lm) : lm.getRoom = room :=
  m_room_of_reachableFrom M hr

/-- Witness of C12: the room `Rect(0, 0, 100, 100)` with one rectangle added;
the rectangle returned differs from the stretched one. -/
theorem C12_getRoom_returns_supplied_room_witness :
    ReachableFrom realMath (⟨0, 0, 100, 100⟩ : RectF ℝ)
        ((LightMap.construct (⟨0, 0, 100, 100⟩ : RectF ℝ)).addObjectRectF ⟨10, 10, 5, 5⟩) ∧
      ((LightMap.construct (⟨0, 0, 100, 100⟩ : RectF ℝ)).addObjectRectF
        ⟨10, 10, 5, 5⟩).getRoom = ⟨0, 0, 100, 100⟩ ∧
      ((LightMap.construct (⟨0, 0, 100, 100⟩ : RectF ℝ)).addObjectRectF
        ⟨10, 10, 5, 5⟩).getRoom ≠ (⟨0, 0, 100, 100⟩ : RectF ℝ).stretched4 0 1 1 0 :=
  ⟨ReachableFrom.addRectF _ ReachableFrom.construct,
    C12_getRoom_returns_supplied_room realMath _ _
      (ReachableFrom.addRectF _ ReachableFrom.construct),
    by
      simp only [LightMap.getRoom, LightMap.addObjectRectF, LightMap.construct,
        RectF.stretched4, ne_eq, RectF.mk.injEq]
      norm_num⟩

/-! ## Registration order and the order of the samples -/

/-- C15: the guard keeps the light off the room boundary: for every room and
every `lightPos` that passes the guard (contained in the room inset by one
unit), `lightPos` lies on none of the four registered room segments (those of
the room stretched by `(0, 1, 1, 0)`) and lies strictly inside the rectangle
they bound. -/
theorem C15_guard_keeps_light_off_boundary (room : RectF α) (lightPos : Vec2 α)
    (hc : (room.stretched (-1)).contains lightPos = true) :
    (LightMap.construct room).m_lines
        = [(room.stretched4 0 1 1 0).top, (room.stretched4 0 1 1 0).right,
            (room.stretched4 0 1 1 0).bottom, (room.stretched4 0 1 1 0).left] ∧
      (∀ line ∈ (LightMap.construct room).m_lines, ¬ line.OnSegment lightPos) ∧
      (room.stretched4 0 1 1 0).x < lightPos.x ∧
      lightPos.x < (room.stretched4 0 1 1 0).x + (room.stretched4 0 1 1 0).w ∧
      (room.stretched4 0 1 1 0).y < lightPos.y ∧
      lightPos.y < (room.stretched4 0 1 1 0).y + (room.stretched4 0 1 1 0).h := by
  rw [contains_iff] at hc
  simp only [RectF.stretched] at hc
  obtain ⟨hx0, hx1, hy0, hy1⟩ := hc
  refine ⟨construct_m_lines room, ?_, ?_, ?_, ?_, ?_⟩
  · intro line hl
    rw [construct_m_lines] at hl
    simp only [List.mem_cons, List.mem_singleton, List.not_mem_nil, or_false] at hl
    rintro ⟨u, hu0, hu1, hp⟩
    have hx := congrArg Vec2.x hp
    have hy := congrArg Vec2.y hp
    rcases hl with rfl | rfl | rfl | rfl <;>
      simp only [RectF.top, RectF.right, RectF.bottom, RectF.left, RectF.tl, RectF.tr,
        RectF.br, RectF.bl, RectF.stretched4, Vec2.add, Vec2.sub, Vec2.mul] at hx hy <;>
      linarith
  · simp only [RectF.stretched4]; linarith
  · simp only [RectF.stretched4]; linarith
  · simp only [RectF.stretched4]; linarith
  · simp only [RectF.stretched4]; linarith

/-- Witness of C15: the room `Rect(0, 0, 100, 100)` and the light at
`(50, 50)`. -/
theorem C15_guard_keeps_light_off_boundary_witness :
    ((⟨0, 0, 100, 100⟩ : RectF ℝ).stretched (-1)).contains ⟨50, 50⟩ = true ∧
      ∀ line ∈ (LightMap.construct (⟨0, 0, 100, 100⟩ : RectF ℝ)).m_lines,
        ¬ line.OnSegment (⟨50, 50⟩ : Vec2 ℝ) :=
  ⟨square_room_contains_centre,
    (C15_guard_keeps_light_off_boundary (⟨0, 0, 100, 100⟩ : RectF ℝ) ⟨50, 50⟩
      square_room_contains_centre).2.1⟩

/-! ## The distance of the hits -/

/-- Counterexample to C16: in double arithmetic, in the room
`RectF(-2, -96, 4, 192)` with `Triangle(0, 50, 1, 60, -1, 60)` added and the
light at the centre `(0, 0)`, for every math library that is correctly rounded
at the arguments of `CorrectlyRoundedSamples`, `maxDistance` is `40` and the
result holds a pair whose left point is the far end point of its ray, at an
exact squared distance from the light greater than `40 · 40`: the direction
`(cos, sin)` of the ray is `(1.0000007e-10, 1)`, longer than `1`. -/
theorem C16_far_end_beyond_maxDistance_counterexample :
    Binary64.contains (Binary64.stretched Binary64.tallRegistry.m_room (-1))
        Binary64.tallLight = true ∧
      Binary64.CorrectlyRoundedSamples Binary64.sampleMath ∧
      ∀ M : MathLib ℚ, Binary64.CorrectlyRoundedSamples M →
        Binary64.maxDistance M Binary64.tallRegistry = 40 ∧
        ∃ pair ∈ Binary64.calculateCollidePoints M Binary64.tallRegistry Binary64.tallLight,
          pair.1 = (Binary64.ray M Binary64.tallRegistry Binary64.tallLight
              (Binary64.fsub Binary64.halfPi Binary64.epsilon)).end_ ∧
          Binary64.maxDistance M Binary64.tallRegistry
              * Binary64.maxDistance M Binary64.tallRegistry
            < pair.1.distanceFromSq Binary64.tallLight :=
  ⟨binary64_tall_contains, binary64_sampleMath_correctlyRounded,
    fun M hM => ⟨binary64_tall_maxDistance M hM, binary64_tall_point_beyond M hM⟩⟩

/-- C16 as amended: for every registry and every `lightPos` inside the inset
room, in double arithmetic every returned left and right point is the far end
point of its ray, `lightPos + Vec2::Right.rotated(angle ∓ ε) * maxDistance`
with `maxDistance = 2·sqrt(w·w + h + h)` (`w`, `h` of the room as supplied), or
the intersection of the ray with a registered segment whose squared distance
from `lightPos`, as computed by `distanceFromSq`, is strictly smaller than that
of the far end point. -/
theorem C16_points_no_farther_than_far_end (M : MathLib ℚ) (lm : LightMap ℚ)
    (lightPos : Vec2 ℚ)
    (hc : Binary64.contains (Binary64.stretched lm.m_room (-1)) lightPos = true) :
    Binary64.maxDistance M lm
        = Binary64.fmul 2 (M.Sqrt (Binary64.fadd
            (Binary64.fadd (Binary64.fmul lm.getRoom.w lm.getRoom.w) lm.getRoom.h)
            lm.getRoom.h)) ∧
      (Binary64.calculateCollidePoints M lm lightPos).length
        = (Binary64.sortedAngles M lm lightPos).length ∧
      ∀ (k : Nat) (angle : ℚ), (Binary64.sortedAngles M lm lightPos)[k]? = some angle →
        ∃ (pair : Vec2 ℚ × Vec2 ℚ) (leftEnd rightEnd : Vec2 ℚ),
          (Binary64.calculateCollidePoints M lm lightPos)[k]? = some pair ∧
          leftEnd = Binary64.vadd lightPos
            (Binary64.vmul (Binary64.rotated M ⟨1, 0⟩ (Binary64.fsub angle Binary64.epsilon))
              (Binary64.maxDistance M lm)) ∧
          rightEnd = Binary64.vadd lightPos
            (Binary64.vmul (Binary64.rotated M ⟨1, 0⟩ (Binary64.fadd angle Binary64.epsilon))
              (Binary64.maxDistance M lm)) ∧
          (pair.1 = leftEnd ∨
            (Binary64.distanceFromSq pair.1 lightPos
                < Binary64.distanceFromSq leftEnd lightPos ∧
              ∃ line ∈ lm.m_lines,
                Binary64.intersectsAt ⟨lightPos, leftEnd⟩ line = some pair.1)) ∧
          (pair.2 = rightEnd ∨
            (Binary64.distanceFromSq pair.2 lightPos
                < Binary64.distanceFromSq rightEnd lightPos ∧
              ∃ line ∈ lm.m_lines,
                Binary64.intersectsAt ⟨lightPos, rightEnd⟩ line = some pair.2)) := by
  rw [binary64_calculateCollidePoints_inside M lm lightPos hc]
  refine ⟨rfl, List.length_map _ _, ?_⟩
  intro k angle hk
  refine ⟨Binary64.castPair M lm lightPos angle, _, _, by simp [hk], rfl, rfl, ?_, ?_⟩
  · rw [binary64_castPair_eq]
    exact (binary64_foldl_scanStep_spec lightPos
      (Binary64.ray M lm lightPos (Binary64.fsub angle Binary64.epsilon)) lm.m_lines _).1
  · rw [binary64_castPair_eq]
    exact (binary64_foldl_scanStep_spec lightPos
      (Binary64.ray M lm lightPos (Binary64.fadd angle Binary64.epsilon)) lm.m_lines _).1

/-- Witness of the amended C16: the registry and the light of the
counterexample. -/
theorem C16_points_no_farther_than_far_end_witness :
    Binary64.contains (Binary64.stretched Binary64.tallRegistry.m_room (-1))
        Binary64.tallLight = true ∧
      (Binary64.calculateCollidePoints Binary64.sampleMath Binary64.tallRegistry
          Binary64.tallLight).length
        = (Binary64.sortedAngles Binary64.sampleMath Binary64.tallRegistry
          Binary64.tallLight).length :=
  ⟨binary64_tall_contains,
    (C16_points_no_farther_than_far_end Binary64.sampleMath Binary64.tallRegistry
      Binary64.tallLight binary64_tall_contains).2.1⟩

end Claims

end LightMap2D
